/-
  Verification of the baron-EVM core against its specification.

  Shallow embedding of the relevant Rust sources:
    crates/interpreter/src/gas.rs
    crates/interpreter/src/instruction_result.rs
    crates/interpreter/src/interpreter.rs            (insert_call_outcome)
    crates/interpreter/src/interpreter/stack.rs
    crates/interpreter/src/interpreter/shared_memory.rs
    crates/interpreter/src/interpreter/analysis.rs   (to_analysed / analyze)
    crates/interpreter/src/interpreter/contract.rs   (is_valid_jump)
    crates/interpreter/src/instructions/control.rs   (rjumpv, return_inner)
    crates/bcevm/src/context/evm_context.rs          (make_call_frame)
    crates/bcevm/src/context/inner_evm_context.rs    (make_create_frame, make_eofcreate_frame, call_return)
    crates/bcevm/src/handler/mainnet/execution.rs    (frame_return_with_refund_flag)
    crates/bcevm/src/handler/mainnet/validation.rs, crates/primitives/src/env.rs
      (validate_tx_against_state)

  Machine integers are modelled as Nat / Int with explicit wrap-around
  (mod 2^64 for u64, two-complement range for i64) at the points where the
  Rust code can wrap.  Rust Vec values are Lean lists; a Vec with its top
  at the end is modelled as a list with its top at the head where noted.
  Rust panics are modelled as Option.none.
-/
import Mathlib

set_option maxRecDepth 10000

namespace BaronEVM

/-! ## Machine-integer helpers -/

/-- Upper bound of u64 values. -/
def U64_LIMIT : Nat := 2 ^ 64

/-- Upper bound of u256 values. -/
def U256_LIMIT : Nat := 2 ^ 256

/-- Cast of an i64 value (as an integer) to u64, as Rust `as u64` does:
two-complement bits reinterpreted, i.e. value mod 2^64. -/
def i64_as_u64 (x : Int) : Nat := (x % (2 ^ 64 : Int)).toNat

/-- Cast of a u64 value to i64, as Rust `as i64` does: values at or above
2^63 become negative. -/
def u64_as_i64 (x : Nat) : Int :=
  if x < 2 ^ 63 then (x : Int) else (x : Int) - 2 ^ 64

/-- Wrapping i64 addition result normalisation: maps an integer into the
i64 range [-2^63, 2^63) preserving its value mod 2^64. -/
def i64_wrap (x : Int) : Int := ((x + 2 ^ 63) % 2 ^ 64) - 2 ^ 63

theorem i64_as_u64_of_nonneg (x : Int) (h0 : 0 ≤ x) (h1 : x < 2 ^ 64) :
    i64_as_u64 x = x.toNat := by
  unfold i64_as_u64
  rw [Int.emod_eq_of_lt h0 h1]

theorem u64_as_i64_of_lt (x : Nat) (h : x < 2 ^ 63) : u64_as_i64 x = (x : Int) := by
  unfold u64_as_i64
  rw [if_pos h]

theorem i64_wrap_eq_self (x : Int) (h0 : -(2 ^ 63) ≤ x) (h1 : x < 2 ^ 63) :
    i64_wrap x = x := by
  unfold i64_wrap
  have h2 : (0 : Int) ≤ x + 2 ^ 63 := by omega
  have h3 : x + 2 ^ 63 < 2 ^ 64 := by omega
  rw [Int.emod_eq_of_lt h2 h3]
  omega

/-! ## Gas (crates/interpreter/src/gas.rs)

  `Gas { limit: u64, remaining: u64, refunded: i64 }`.
  `spent` is u64 subtraction `limit - remaining`, which wraps in release
  builds; we model the wrap explicitly. -/

structure Gas where
  limit : Nat
  remaining : Nat
  refunded : Int
deriving Repr, DecidableEq

/-- Constructor `Gas::new(limit)`. -/
def Gas.new (limit : Nat) : Gas := ⟨limit, limit, 0⟩

/-- Constructor `Gas::new_spent(limit)`. -/
def Gas.new_spent (limit : Nat) : Gas := ⟨limit, 0, 0⟩

/-- Projection `Gas::spent`, u64 wrapping subtraction `limit - remaining`. -/
def Gas.spent (g : Gas) : Nat := (g.limit + U64_LIMIT - g.remaining) % U64_LIMIT

/-- Operation `Gas::erase_cost`, u64 wrapping `remaining += returned`. -/
def Gas.erase_cost (g : Gas) (returned : Nat) : Gas :=
  { g with remaining := (g.remaining + returned) % U64_LIMIT }

/-- Operation `Gas::spend_all`. -/
def Gas.spend_all (g : Gas) : Gas := { g with remaining := 0 }

/-- Operation `Gas::record_refund`, i64 wrapping `refunded += refund`. -/
def Gas.record_refund (g : Gas) (refund : Int) : Gas :=
  { g with refunded := i64_wrap (g.refunded + refund) }

/-- Operation `Gas::set_final_refund(is_london)`:
`self.refunded = (self.refunded() as u64).min(self.spent() / max_refund_quotient) as i64`
where max_refund_quotient is 5 for London and 2 before. -/
def Gas.set_final_refund (g : Gas) (is_london : Bool) : Gas :=
  { g with refunded :=
      u64_as_i64 (min (i64_as_u64 g.refunded) (g.spent / (if is_london then 5 else 2))) }

/-- Operation `Gas::record_cost`: checked subtraction; `none` models the
`false` return (no mutation happens then). -/
def Gas.record_cost (g : Gas) (cost : Nat) : Option Gas :=
  if cost ≤ g.remaining then some { g with remaining := g.remaining - cost } else none

theorem gas_spent_of_le (g : Gas) (hrl : g.remaining ≤ g.limit) (hl : g.limit < U64_LIMIT) :
    g.spent = g.limit - g.remaining := by
  unfold Gas.spent
  have h1 : g.limit + U64_LIMIT - g.remaining = (g.limit - g.remaining) + U64_LIMIT := by omega
  rw [h1, Nat.add_mod_right, Nat.mod_eq_of_lt (by omega)]

theorem gas_spent_lt (g : Gas) : g.spent < U64_LIMIT :=
  Nat.mod_lt _ (by norm_num [U64_LIMIT])

theorem gas_quot_lt (g : Gas) (b : Bool) : g.spent / (if b then 5 else 2) < 2 ^ 63 := by
  have hs : g.spent < U64_LIMIT := gas_spent_lt g
  unfold U64_LIMIT at hs
  have hq : (if b then 5 else 2 : Nat) = 5 ∨ (if b then 5 else 2 : Nat) = 2 := by
    cases b <;> simp
  rcases hq with h | h <;> rw [h] <;> omega

/-- Helper: the refunded value produced by set_final_refund always lands in
[0, spent / quotient]. -/
theorem gas_set_final_refund_le (g : Gas) (b : Bool) :
    0 ≤ (g.set_final_refund b).refunded ∧
      (g.set_final_refund b).refunded ≤ ((g.spent / (if b then 5 else 2) : Nat) : Int) := by
  have hmin : min (i64_as_u64 g.refunded) (g.spent / (if b then 5 else 2)) < 2 ^ 63 :=
    lt_of_le_of_lt (Nat.min_le_right _ _) (gas_quot_lt g b)
  unfold Gas.set_final_refund
  dsimp only
  rw [u64_as_i64_of_lt _ hmin]
  refine ⟨Int.natCast_nonneg _, ?_⟩
  exact_mod_cast Nat.min_le_right _ _

/-- Helper: set_final_refund does not change limit or remaining, hence not spent. -/
theorem gas_set_final_refund_spent (g : Gas) (b : Bool) :
    (g.set_final_refund b).spent = g.spent := rfl

/-! ## Instruction results (crates/interpreter/src/instruction_result.rs) -/

inductive InstructionResult where
  | Continue | Stop | Return | SelfDestruct | ReturnContract
  | Revert | CallTooDeep | OutOfFunds
  | CallOrCreate
  | OutOfGas | MemoryOOG | MemoryLimitOOG | PrecompileOOG | InvalidOperandOOG
  | OpcodeNotFound | CallNotAllowedInsideStatic | StateChangeDuringStaticCall
  | InvalidFEOpcode | InvalidJump | NotActivated | StackUnderflow | StackOverflow
  | OutOfOffset | CreateCollision | OverflowPayment | PrecompileError | NonceOverflow
  | CreateContractSizeLimit | CreateContractStartingWithEF | CreateInitCodeSizeLimit
  | FatalExternalError | ReturnContractInNotInitEOF | EOFOpcodeDisabledInLegacy
  | EOFFunctionStackOverflow
deriving Repr, DecidableEq

/-- Predicate `is_ok`, the `return_ok!` variant set. -/
def InstructionResult.is_ok : InstructionResult → Bool
  | .Continue | .Stop | .Return | .SelfDestruct | .ReturnContract => true
  | _ => false

/-- Predicate `is_revert`, the `return_revert!` variant set. -/
def InstructionResult.is_revert : InstructionResult → Bool
  | .Revert | .CallTooDeep | .OutOfFunds => true
  | _ => false

/-! ## Last-frame refund handling (crates/bcevm/src/handler/mainnet/execution.rs)

  `frame_return_with_refund_flag` acts on the gas and instruction result of
  the outermost frame result; we model exactly that projection.  The
  generic parameter `SPEC` is reflected as the boolean `is_london`
  (`SPEC::SPEC_ID.is_enabled_in(SpecId::LONDON)`). -/

def frame_return_with_refund_flag (tx_gas_limit : Nat) (res : InstructionResult)
    (g : Gas) (refund_enabled : Bool) (is_london : Bool) : Gas :=
  let remaining := g.remaining
  let refunded := g.refunded
  let gas := Gas.new_spent tx_gas_limit
  let gas :=
    if res.is_ok then (gas.erase_cost remaining).record_refund refunded
    else if res.is_revert then gas.erase_cost remaining
    else gas
  if refund_enabled then gas.set_final_refund is_london else gas

/-- Handler `last_frame_return` applies `frame_return_with_refund_flag` with
the refund flag enabled. -/
def last_frame_return (tx_gas_limit : Nat) (res : InstructionResult)
    (g : Gas) (is_london : Bool) : Gas :=
  frame_return_with_refund_flag tx_gas_limit res g true is_london

/-- C2 (corrected): the claim states that after `set_final_refund` the refund
counter equals the minimum of the previously accumulated refund and
spent/5 (London) or spent/2.  This fails for negative accumulated refunds,
because the code casts the i64 refund to u64 before taking the minimum:
`Gas { limit := 10, remaining := 0, refunded := -1 }` yields refund 2 under
London, not min (-1) 2 = -1. -/
theorem C2_counterexample :
    (Gas.set_final_refund ⟨10, 0, -1⟩ true).refunded
      ≠ min (-1 : Int) (((Gas.spent ⟨10, 0, -1⟩ / 5 : Nat) : Int)) := by decide

/-- C2 (amended): for every Gas value whose accumulated refund is
nonnegative (and in i64 range), `set_final_refund is_london` sets the refund
counter to the minimum of the previous refund and spent/5 (when London) or
spent/2 (otherwise); moreover, unconditionally, after `last_frame_return`
the final refund is at most spent divided by that quotient. -/
theorem C2_theorem (g : Gas) (b : Bool)
    (h0 : 0 ≤ g.refunded) (h1 : g.refunded < 2 ^ 63) :
    (g.set_final_refund b).refunded
        = min g.refunded ((g.spent / (if b then 5 else 2) : Nat) : Int)
    ∧ ∀ (tx_gas_limit : Nat) (res : InstructionResult) (g2 : Gas) (lb : Bool),
        (last_frame_return tx_gas_limit res g2 lb).refunded
          ≤ (((last_frame_return tx_gas_limit res g2 lb).spent / (if lb then 5 else 2) : Nat) : Int) := by
  constructor
  · have hru : i64_as_u64 g.refunded = g.refunded.toNat :=
      i64_as_u64_of_nonneg _ h0 (lt_trans h1 (by norm_num))
    have hmin : min (i64_as_u64 g.refunded) (g.spent / (if b then 5 else 2)) < 2 ^ 63 :=
      lt_of_le_of_lt (Nat.min_le_right _ _) (gas_quot_lt g b)
    unfold Gas.set_final_refund
    dsimp only
    rw [u64_as_i64_of_lt _ hmin, hru]
    push_cast
    rw [Int.toNat_of_nonneg h0]
  · intro tx_gas_limit res g2 lb
    unfold last_frame_return frame_return_with_refund_flag
    simp only [if_true]
    rw [gas_set_final_refund_spent]
    exact (gas_set_final_refund_le _ lb).2

/-- C2 witness: instantiation of the amended theorem at a concrete Gas value. -/
theorem C2_witness :
    (0 : Int) ≤ (⟨100, 40, 7⟩ : Gas).refunded ∧
    (Gas.set_final_refund ⟨100, 40, 7⟩ true).refunded
      = min (7 : Int) ((Gas.spent ⟨100, 40, 7⟩ / 5 : Nat) : Int) := by
  refine ⟨by decide, ?_⟩
  exact (C2_theorem ⟨100, 40, 7⟩ true (by decide) (by decide)).1

/-! ## Stack (crates/interpreter/src/interpreter/stack.rs)

  `Stack { data: Vec<U256> }` with capacity STACK_LIMIT = 1024.  The Vec
  keeps the stack top at its end; we model it as a list with the top at the
  head, so list index n is the element n positions below the top (the Rust
  index `len - 1 - n`).  U256 values are Nat; the stack operations never
  compute with them.  Fallible operations return Except; the Rust code
  performs all checks before any mutation, so an error return leaves the
  stack unchanged. -/

def STACK_LIMIT : Nat := 1024

structure Stack where
  data : List Nat
deriving Repr, DecidableEq

def Stack.len (s : Stack) : Nat := s.data.length

/-- Operation `Stack::push`. -/
def Stack.push (s : Stack) (value : Nat) : Except InstructionResult Stack :=
  if s.data.length = STACK_LIMIT then .error .StackOverflow
  else .ok ⟨value :: s.data⟩

/-- Operation `Stack::push_b256`: converts the 32-byte word and delegates to push. -/
def Stack.push_b256 (s : Stack) (value : Nat) : Except InstructionResult Stack :=
  s.push value

/-- Operation `Stack::pop`: Vec pop removes the top (list head). -/
def Stack.pop (s : Stack) : Except InstructionResult (Nat × Stack) :=
  if s.data = [] then .error .StackUnderflow
  else .ok (s.data.headD 0, ⟨s.data.tail⟩)

/-- Operation `Stack::peek(no_from_top)`: reads `data[len - 1 - no_from_top]`,
underflow when out of range (the Rust wrapping index makes any
out-of-range request miss the Vec). -/
def Stack.peek (s : Stack) (no_from_top : Nat) : Except InstructionResult Nat :=
  match s.data.get? no_from_top with
  | some v => .ok v
  | none => .error .StackUnderflow

/-- Operation `Stack::dup(n)`: duplicates `data[len - n]`, i.e. the element
n - 1 positions below the top. -/
def Stack.dup (s : Stack) (n : Nat) : Except InstructionResult Stack :=
  if s.data.length < n then .error .StackUnderflow
  else if s.data.length + 1 > STACK_LIMIT then .error .StackOverflow
  else .ok ⟨s.data.getD (n - 1) 0 :: s.data⟩

/-- Operation `Stack::exchange(n, m)`: swaps the elements n and n + m
positions below the top. -/
def Stack.exchange (s : Stack) (n m : Nat) : Except InstructionResult Stack :=
  if n + m ≥ s.data.length then .error .StackUnderflow
  else .ok ⟨(s.data.set n (s.data.getD (n + m) 0)).set (n + m) (s.data.getD n 0)⟩

/-- Operation `Stack::swap(n)`, defined as `exchange(0, n)`. -/
def Stack.swap (s : Stack) (n : Nat) : Except InstructionResult Stack :=
  s.exchange 0 n

/-- Big-endian numeric value of a byte chunk. -/
def beNat (chunk : List Nat) : Nat := chunk.foldl (fun acc b => acc * 256 + b) 0

/-- Word values written by `push_slice`: the slice is split into 32-byte
chunks, each interpreted big-endian (the final, possibly partial, chunk is
written into the low limbs, so its value is its big-endian reading). -/
def chunksBE (l : List Nat) : List Nat :=
  if h : l = [] then []
  else beNat (l.take 32) :: chunksBE (l.drop 32)
termination_by l.length
decreasing_by
  simp only [List.length_drop]
  have : 0 < l.length := List.length_pos.mpr h
  omega

/-- Operation `Stack::push_slice`: pushes ceil(len/32) words; the chunk
written last (the end of the slice) becomes the new top. -/
def Stack.push_slice (s : Stack) (slice : List Nat) : Except InstructionResult Stack :=
  if slice = [] then .ok s
  else
    let n_words := (slice.length + 31) / 32
    if s.data.length + n_words > STACK_LIMIT then .error .StackOverflow
    else .ok ⟨(chunksBE slice).reverse ++ s.data⟩

/-- Operation `Stack::set(no_from_top, val)`. -/
def Stack.set (s : Stack) (no_from_top : Nat) (val : Nat) : Except InstructionResult Stack :=
  if no_from_top < s.data.length then .ok ⟨s.data.set no_from_top val⟩
  else .error .StackUnderflow

theorem chunksBE_length_aux :
    ∀ (n : Nat) (l : List Nat), l.length ≤ n → (chunksBE l).length = (l.length + 31) / 32 := by
  intro n
  induction n with
  | zero =>
    intro l hl
    have hnil : l = [] := List.eq_nil_of_length_eq_zero (by omega)
    subst hnil
    simp [chunksBE]
  | succ n ih =>
    intro l hl
    by_cases h : l = []
    · subst h; simp [chunksBE]
    · rw [chunksBE, dif_neg h]
      have hlen : 0 < l.length := List.length_pos.mpr h
      have hdrop := ih (l.drop 32) (by simp only [List.length_drop]; omega)
      simp only [List.length_cons, hdrop, List.length_drop]
      omega

theorem chunksBE_length (l : List Nat) : (chunksBE l).length = (l.length + 31) / 32 :=
  chunksBE_length_aux l.length l (Nat.le_refl _)

/-- C4 (confirmed): every Stack operation keeps the length at or below
STACK_LIMIT = 1024; push on a full stack, dup on a stack that would exceed
the limit, and push_slice that would exceed the limit all return
StackOverflow (before any mutation, so the stack is unchanged). -/
theorem C4_theorem (s : Stack) (h : s.len ≤ STACK_LIMIT) :
    (∀ v t, s.push v = .ok t → t.len ≤ STACK_LIMIT) ∧
    (∀ v t, s.push_b256 v = .ok t → t.len ≤ STACK_LIMIT) ∧
    (∀ sl t, s.push_slice sl = .ok t → t.len ≤ STACK_LIMIT) ∧
    (∀ v t, s.pop = .ok (v, t) → t.len ≤ STACK_LIMIT) ∧
    (∀ n t, s.dup n = .ok t → t.len ≤ STACK_LIMIT) ∧
    (∀ n t, s.swap n = .ok t → t.len ≤ STACK_LIMIT) ∧
    (∀ n m t, s.exchange n m = .ok t → t.len ≤ STACK_LIMIT) ∧
    (∀ n v t, s.set n v = .ok t → t.len ≤ STACK_LIMIT) ∧
    (s.len = STACK_LIMIT → ∀ v, s.push v = .error .StackOverflow) ∧
    (∀ n, n ≤ s.len → s.len + 1 > STACK_LIMIT → s.dup n = .error .StackOverflow) ∧
    (∀ sl, sl ≠ [] → s.len + (sl.length + 31) / 32 > STACK_LIMIT →
      s.push_slice sl = .error .StackOverflow) := by
  refine ⟨?_, ?_, ?_, ?_, ?_, ?_, ?_, ?_, ?_, ?_, ?_⟩
  · intro v t hok
    unfold Stack.push at hok
    split at hok
    · cases hok
    · cases hok
      simp only [Stack.len, List.length_cons] at *
      omega
  · intro v t hok
    unfold Stack.push_b256 Stack.push at hok
    split at hok
    · cases hok
    · cases hok
      simp only [Stack.len, List.length_cons] at *
      omega
  · intro sl t hok
    unfold Stack.push_slice at hok
    split at hok
    · cases hok
      exact h
    · dsimp only at hok
      split at hok
      · cases hok
      · cases hok
        simp only [Stack.len, List.length_append, List.length_reverse, chunksBE_length] at *
        omega
  · intro v t hok
    unfold Stack.pop at hok
    split at hok
    · cases hok
    · cases hok
      simp only [Stack.len, List.length_tail] at *
      omega
  · intro n t hok
    unfold Stack.dup at hok
    split at hok
    · cases hok
    · split at hok
      · cases hok
      · cases hok
        simp only [Stack.len, List.length_cons] at *
        omega
  · intro n t hok
    unfold Stack.swap Stack.exchange at hok
    split at hok
    · cases hok
    · cases hok
      simp only [Stack.len, List.length_set] at *
      omega
  · intro n m t hok
    unfold Stack.exchange at hok
    split at hok
    · cases hok
    · cases hok
      simp only [Stack.len, List.length_set] at *
      omega
  · intro n v t hok
    unfold Stack.set at hok
    split at hok
    · cases hok
      simp only [Stack.len, List.length_set] at *
      omega
    · cases hok
  · intro hfull v
    unfold Stack.push
    unfold Stack.len at hfull
    rw [if_pos hfull]
  · intro n hn hover
    unfold Stack.dup
    rw [if_neg (by simp only [Stack.len] at hn; omega)]
    rw [if_pos (by simp only [Stack.len] at hover; omega)]
  · intro sl hne hover
    unfold Stack.push_slice
    rw [if_neg hne]
    simp only [Stack.len] at hover
    rw [if_pos hover]

/-- C4 witness: instantiation at the empty stack; push produces a singleton. -/
theorem C4_witness :
    (Stack.len ⟨[]⟩ ≤ STACK_LIMIT) ∧
      (∀ v t, Stack.push ⟨[]⟩ v = .ok t → t.len ≤ STACK_LIMIT) := by
  refine ⟨by decide, ?_⟩
  exact (C4_theorem ⟨[]⟩ (by decide)).1

/-! ## Shared memory (crates/interpreter/src/interpreter/shared_memory.rs)

  `SharedMemory { buffer: Vec<u8>, checkpoints: Vec<usize>, last_checkpoint: usize }`.
  The checkpoints Vec keeps its most recent element at the end; we model it
  as a list with the most recent element at the head.  Slice writes out of
  the context bounds panic in Rust; they are modelled as Option.none.  The
  struct maintains the invariant
  `last_checkpoint = *checkpoints.last().unwrap_or(&0) ∧ last_checkpoint ≤ buffer.len`. -/

structure SharedMemory where
  buffer : List Nat
  checkpoints : List Nat
  lastCheckpoint : Nat
deriving Repr, DecidableEq

/-- Operation `SharedMemory::new_context`. -/
def SharedMemory.new_context (m : SharedMemory) : SharedMemory :=
  ⟨m.buffer, m.buffer.length :: m.checkpoints, m.buffer.length⟩

/-- Operation `SharedMemory::free_context`: pops the top checkpoint and
truncates the buffer to it. -/
def SharedMemory.free_context (m : SharedMemory) : SharedMemory :=
  match m.checkpoints with
  | [] => m
  | old :: rest => ⟨m.buffer.take old, rest, rest.headD 0⟩

/-- Operation `SharedMemory::len`: length of the current context. -/
def SharedMemory.len (m : SharedMemory) : Nat := m.buffer.length - m.lastCheckpoint

/-- Operation `SharedMemory::context_memory`: `buffer[last_checkpoint..]`. -/
def SharedMemory.context_memory (m : SharedMemory) : List Nat :=
  m.buffer.drop m.lastCheckpoint

/-- Behaviour of `Vec::resize(n, 0)`: truncate or zero-extend to exact length n. -/
def listResize (l : List Nat) (n : Nat) : List Nat :=
  l.take n ++ List.replicate (n - l.length) 0

/-- Operation `SharedMemory::resize(new_size)`:
`buffer.resize(last_checkpoint + new_size, 0)`. -/
def SharedMemory.resize (m : SharedMemory) (new_size : Nat) : SharedMemory :=
  { m with buffer := listResize m.buffer (m.lastCheckpoint + new_size) }

/-- In-bounds list overwrite starting at index i. -/
def writeAt (l : List Nat) (i : Nat) (v : List Nat) : List Nat :=
  l.take i ++ v ++ l.drop (i + v.length)

/-- Operation `SharedMemory::set(offset, value)`: no-op for an empty value,
otherwise writes value into the current context; out-of-bounds panics. -/
def SharedMemory.set (m : SharedMemory) (offset : Nat) (value : List Nat) :
    Option SharedMemory :=
  if value = [] then some m
  else if offset + value.length ≤ m.len then
    some { m with buffer := writeAt m.buffer (m.lastCheckpoint + offset) value }
  else none

/-- Operation `SharedMemory::set_data(memory_offset, data_offset, len, data)`:
writes len bytes taken from data at data_offset, zero-padded past the end
of data; the slice_mut on the context panics when out of bounds. -/
def SharedMemory.set_data (m : SharedMemory) (memory_offset data_offset len : Nat)
    (data : List Nat) : Option SharedMemory :=
  if memory_offset + len ≤ m.len then
    let chunk :=
      if data_offset ≥ data.length then List.replicate len 0
      else
        let data_end := min (data_offset + len) data.length
        let data_len := data_end - data_offset
        ((data.drop data_offset).take data_len) ++ List.replicate (len - data_len) 0
    some { m with buffer := writeAt m.buffer (m.lastCheckpoint + memory_offset) chunk }
  else none

/-- Operation `SharedMemory::copy(dst, src, len)`: `copy_within` on the
current context; panics when either range is out of bounds. -/
def SharedMemory.copy (m : SharedMemory) (dst src len : Nat) : Option SharedMemory :=
  if src + len ≤ m.len ∧ dst + len ≤ m.len then
    let value := (m.context_memory.drop src).take len
    some { m with buffer := writeAt m.buffer (m.lastCheckpoint + dst) value }
  else none

/-- Memory operations a frame may perform inside its own context (the
operations named by the claim). -/
inductive MemOp where
  | resize (new_size : Nat)
  | set (offset : Nat) (value : List Nat)
  | set_data (memory_offset data_offset len : Nat) (data : List Nat)
  | copy (dst src len : Nat)
deriving Repr, DecidableEq

def applyMemOp (m : SharedMemory) : MemOp → Option SharedMemory
  | .resize n => some (m.resize n)
  | .set o v => m.set o v
  | .set_data a b c d => m.set_data a b c d
  | .copy a b c => m.copy a b c

def runMemOps (ops : List MemOp) (m : SharedMemory) : Option SharedMemory :=
  match ops with
  | [] => some m
  | op :: rest => (applyMemOp m op).bind (runMemOps rest)

/-- Frame-locality invariant used for C7: the child context leaves the
checkpoint bookkeeping alone and only ever touches the buffer at or beyond
the last checkpoint. -/
def MemInv (base : SharedMemory) (cp : Nat) (m : SharedMemory) : Prop :=
  m.checkpoints = base.checkpoints ∧ m.lastCheckpoint = base.lastCheckpoint ∧
    m.buffer.take cp = base.buffer.take cp ∧ cp ≤ m.buffer.length ∧
    cp ≤ base.lastCheckpoint ∧ base.lastCheckpoint ≤ m.buffer.length

theorem writeAt_take (l : List Nat) (i cp : Nat) (v : List Nat)
    (h : cp ≤ i) (hcl : cp ≤ l.length) :
    (writeAt l i v).take cp = l.take cp := by
  unfold writeAt
  have hlen : cp ≤ (l.take i).length := by
    rw [List.length_take]; omega
  have hlen2 : cp ≤ (l.take i ++ v).length := by
    rw [List.length_append]; omega
  rw [List.take_append_eq_append_take, Nat.sub_eq_zero_of_le hlen2, List.take_zero,
    List.append_nil]
  rw [List.take_append_eq_append_take, Nat.sub_eq_zero_of_le hlen, List.take_zero,
    List.append_nil]
  rw [List.take_take, min_eq_left h]

theorem writeAt_length (l : List Nat) (i : Nat) (v : List Nat)
    (h : i + v.length ≤ l.length) :
    (writeAt l i v).length = l.length := by
  unfold writeAt
  simp only [List.length_append, List.length_take, List.length_drop]
  omega

theorem listResize_take (l : List Nat) (n cp : Nat) (h : cp ≤ n) (hcl : cp ≤ l.length) :
    (listResize l n).take cp = l.take cp := by
  unfold listResize
  rw [List.take_append_eq_append_take]
  have hlen : cp ≤ (l.take n).length := by
    rw [List.length_take]; omega
  have h0 : cp - (l.take n).length = 0 := by omega
  rw [h0, List.take_zero, List.append_nil, List.take_take, min_eq_left h]

theorem listResize_length (l : List Nat) (n : Nat) : (listResize l n).length = n := by
  unfold listResize
  simp only [List.length_append, List.length_take, List.length_replicate]
  omega

theorem applyMemOp_inv (base : SharedMemory) (cp : Nat) (m m2 : SharedMemory) (op : MemOp)
    (hinv : MemInv base cp m) (happ : applyMemOp m op = some m2) :
    MemInv base cp m2 := by
  obtain ⟨hck, hlc, htk, hln, hcb, hlb⟩ := hinv
  have hcplc : cp ≤ m.lastCheckpoint := by omega
  have hlclen : m.lastCheckpoint ≤ m.buffer.length := by omega
  cases op with
  | resize n =>
    simp only [applyMemOp, SharedMemory.resize, Option.some_inj] at happ
    subst happ
    refine ⟨hck, hlc, ?_, ?_, hcb, ?_⟩
    · rw [listResize_take _ _ _ (by omega) hln, htk]
    · rw [listResize_length]; omega
    · rw [listResize_length]; omega
  | set o v =>
    simp only [applyMemOp, SharedMemory.set] at happ
    split at happ
    · cases happ; exact ⟨hck, hlc, htk, hln, hcb, hlb⟩
    · split at happ
      · cases happ
        rename_i hempty hbound
        unfold SharedMemory.len at hbound
        have hwl : (writeAt m.buffer (m.lastCheckpoint + o) v).length = m.buffer.length :=
          writeAt_length _ _ _ (by omega)
        refine ⟨hck, hlc, ?_, ?_, hcb, ?_⟩
        · rw [writeAt_take _ _ _ _ (by omega) hln, htk]
        · rw [hwl]; omega
        · rw [hwl]; omega
      · cases happ
  | set_data a b c d =>
    simp only [applyMemOp, SharedMemory.set_data] at happ
    split at happ
    · cases happ
      rename_i hbound
      unfold SharedMemory.len at hbound
      have hchunk :
          (if b ≥ d.length then List.replicate c 0
           else ((d.drop b).take (min (b + c) d.length - b)) ++
             List.replicate (c - (min (b + c) d.length - b)) 0).length = c := by
        split
        · rw [List.length_replicate]
        · rename_i hb
          simp only [List.length_append, List.length_take, List.length_drop,
            List.length_replicate]
          omega
      have hwl : (writeAt m.buffer (m.lastCheckpoint + a)
          (if b ≥ d.length then List.replicate c 0
           else ((d.drop b).take (min (b + c) d.length - b)) ++
             List.replicate (c - (min (b + c) d.length - b)) 0)).length = m.buffer.length :=
        writeAt_length _ _ _ (by rw [hchunk]; omega)
      refine ⟨hck, hlc, ?_, ?_, hcb, ?_⟩
      · rw [writeAt_take _ _ _ _ (by omega) hln, htk]
      · rw [hwl]; omega
      · rw [hwl]; omega
    · cases happ
  | copy a b c =>
    simp only [applyMemOp, SharedMemory.copy] at happ
    split at happ
    · cases happ
      rename_i hbound
      obtain ⟨hsrc, hdst⟩ := hbound
      unfold SharedMemory.len at hsrc hdst
      have hval : ((m.context_memory.drop b).take c).length = c := by
        simp only [List.length_take, List.length_drop, SharedMemory.context_memory]
        omega
      have hwl : (writeAt m.buffer (m.lastCheckpoint + a)
          ((m.context_memory.drop b).take c)).length = m.buffer.length :=
        writeAt_length _ _ _ (by rw [hval]; omega)
      refine ⟨hck, hlc, ?_, ?_, hcb, ?_⟩
      · rw [writeAt_take _ _ _ _ (by omega) hln, htk]
      · rw [hwl]; omega
      · rw [hwl]; omega
    · cases happ

theorem runMemOps_inv (base : SharedMemory) (cp : Nat) :
    ∀ (ops : List MemOp) (m m2 : SharedMemory),
      MemInv base cp m → runMemOps ops m = some m2 → MemInv base cp m2 := by
  intro ops
  induction ops with
  | nil =>
    intro m m2 hinv hrun
    simp only [runMemOps, Option.some_inj] at hrun
    subst hrun; exact hinv
  | cons op rest ih =>
    intro m m2 hinv hrun
    simp only [runMemOps] at hrun
    cases happ : applyMemOp m op with
    | none => rw [happ] at hrun; cases hrun
    | some m1 =>
      rw [happ] at hrun
      exact ih m1 m2 (applyMemOp_inv base cp m m1 op hinv happ) hrun

/-- C7 (confirmed): for every SharedMemory satisfying the struct invariant
and every sequence of resize / set / set_data / copy operations performed
between new_context and the matching free_context, the state after
free_context is exactly the state before new_context; in particular the
parent context length and contents are restored. -/
theorem C7_theorem (m : SharedMemory) (ops : List MemOp) (m2 : SharedMemory)
    (hwf1 : m.lastCheckpoint = m.checkpoints.headD 0)
    (hwf2 : m.lastCheckpoint ≤ m.buffer.length)
    (hrun : runMemOps ops m.new_context = some m2) :
    m2.free_context = m ∧
      m2.free_context.context_memory = m.context_memory ∧
      m2.free_context.len = m.len := by
  have hinv0 : MemInv m.new_context m.buffer.length m.new_context := by
    exact ⟨rfl, rfl, rfl, Nat.le_refl _, Nat.le_refl _, Nat.le_refl _⟩
  have hinv := runMemOps_inv m.new_context m.buffer.length ops m.new_context m2 hinv0 hrun
  obtain ⟨hck, hlc, htk, hln, _⟩ := hinv
  have hfree : m2.free_context = m := by
    unfold SharedMemory.free_context
    rw [hck]
    show SharedMemory.mk (m2.buffer.take m.buffer.length) m.checkpoints
        (m.checkpoints.headD 0) = m
    have hbuf : m2.buffer.take m.buffer.length = m.buffer := by
      rw [htk]
      show m.buffer.take m.buffer.length = m.buffer
      exact List.take_length m.buffer
    rw [hbuf, ← hwf1]
  exact ⟨hfree, by rw [hfree], by rw [hfree]⟩

/-- C7 witness: a concrete run with one resize and one write inside the
child context restores the parent context exactly. -/
theorem C7_witness :
    (SharedMemory.lastCheckpoint ⟨[7, 7], [0], 0⟩ = List.headD [0] 0) ∧
      SharedMemory.free_context ⟨[7, 7, 0, 5, 5], [2, 0], 2⟩ = ⟨[7, 7], [0], 0⟩ := by
  have hrun : runMemOps [MemOp.resize 3, MemOp.set 1 [5, 5]]
      (SharedMemory.new_context ⟨[7, 7], [0], 0⟩) = some ⟨[7, 7, 0, 5, 5], [2, 0], 2⟩ := by
    decide
  have h := C7_theorem ⟨[7, 7], [0], 0⟩ [MemOp.resize 3, MemOp.set 1 [5, 5]]
    ⟨[7, 7, 0, 5, 5], [2, 0], 2⟩ (by decide) (by decide) hrun
  exact ⟨by decide, h.1⟩

/-! ## Journal checkpointing

  Modelled from the spec: JournaledState checkpointing (journaled_state.rs
  is not under src/).  Per spec 4.8 a checkpoint is a mark that a later
  revert restores; commit folds the current level into its parent; the
  journal depth matches the number of open checkpoints.  Functionally this
  is a snapshot stack over the wrapped state. -/

structure Journaled (α : Type) where
  cur : α
  saved : List α
  depth : Nat
deriving Repr, DecidableEq

/-- Modelled from the spec: `JournaledState::checkpoint` opens a nested
checkpoint and increments the depth. -/
def Journaled.checkpoint {α : Type} (j : Journaled α) : Journaled α :=
  ⟨j.cur, j.cur :: j.saved, j.depth + 1⟩

/-- Modelled from the spec: `JournaledState::checkpoint_commit` folds the
current checkpoint level into its parent (state kept). -/
def Journaled.checkpoint_commit {α : Type} (j : Journaled α) : Journaled α :=
  ⟨j.cur, j.saved.tail, j.depth - 1⟩

/-- Modelled from the spec: `JournaledState::checkpoint_revert` undoes all
entries of the current level, restoring the state saved at the checkpoint. -/
def Journaled.checkpoint_revert {α : Type} (j : Journaled α) : Journaled α :=
  ⟨j.saved.headD j.cur, j.saved.tail, j.depth - 1⟩

/-- Function `InnebcevmContext::call_return`
(crates/bcevm/src/context/inner_evm_context.rs): commit the frame
checkpoint on a `return_ok!` result, revert it otherwise. -/
def call_return {α : Type} (j : Journaled α) (res : InstructionResult) : Journaled α :=
  if res.is_ok then j.checkpoint_commit else j.checkpoint_revert

/-! ## Call outcome insertion (crates/interpreter/src/interpreter.rs) -/

structure InterpreterResult where
  result : InstructionResult
  output : List Nat
  gas : Gas
deriving Repr, DecidableEq

/-- Outcome of a child call frame
(crates/interpreter/src/interpreter_action/call_outcome.rs); the
memory_offset Range is kept as start and length. -/
structure CallOutcome where
  result : InterpreterResult
  memory_start : Nat
  memory_length : Nat
deriving Repr, DecidableEq

/-- Fields of the parent Interpreter touched by `insert_call_outcome`. -/
structure ParentInterp where
  stack : Stack
  gas : Gas
  return_data_buffer : List Nat
  instruction_result : InstructionResult
deriving Repr, DecidableEq

/-- Method `Interpreter::insert_call_outcome`: applies a child call outcome
to the parent interpreter and the shared memory.  The `push!` macro sets
`instruction_result` on stack overflow without pushing; the
FatalExternalError arm panics in Rust and is modelled as none; the
slice write panics when out of the context bounds (none). -/
def Interpreter.insert_call_outcome (ip : ParentInterp) (shared_memory : SharedMemory)
    (call_outcome : CallOutcome) : Option (ParentInterp × SharedMemory) :=
  let ip := { ip with instruction_result := InstructionResult.Continue,
                      return_data_buffer := call_outcome.result.output }
  let out_offset := call_outcome.memory_start
  let out_len := call_outcome.memory_length
  let target_len := min out_len ip.return_data_buffer.length
  if call_outcome.result.result.is_ok then
    let gas := (ip.gas.erase_cost call_outcome.result.gas.remaining).record_refund
        call_outcome.result.gas.refunded
    match shared_memory.set out_offset (ip.return_data_buffer.take target_len) with
    | none => none
    | some mem =>
      match ip.stack.push 1 with
      | .error e => some ({ ip with gas := gas, instruction_result := e }, mem)
      | .ok st => some ({ ip with gas := gas, stack := st }, mem)
  else if call_outcome.result.result.is_revert then
    let gas := ip.gas.erase_cost call_outcome.result.gas.remaining
    match shared_memory.set out_offset (ip.return_data_buffer.take target_len) with
    | none => none
    | some mem =>
      match ip.stack.push 0 with
      | .error e => some ({ ip with gas := gas, instruction_result := e }, mem)
      | .ok st => some ({ ip with gas := gas, stack := st }, mem)
  else if call_outcome.result.result = InstructionResult.FatalExternalError then
    none
  else
    match ip.stack.push 0 with
    | .error e => some ({ ip with instruction_result := e }, shared_memory)
    | .ok st => some ({ ip with stack := st }, shared_memory)

/-- C1 counterexample: the claim asserts that for every non-Success,
non-Revert (Halt) child result 0 is pushed on the parent stack; for the
Halt result FatalExternalError the code instead panics
(`panic!("Fatal external error in insert_call_outcome")`), so nothing is
pushed. -/
theorem C1_counterexample :
    Interpreter.insert_call_outcome ⟨⟨[]⟩, Gas.new 0, [], .Continue⟩ ⟨[], [], 0⟩
      ⟨⟨.FatalExternalError, [], Gas.new 0⟩, 0, 0⟩ = none := by decide

/-- C1 (amended): applying a child call outcome, provided the parent stack
is not full, the memory write target is in bounds, and the child result is
not FatalExternalError (whose arm panics): a Success result commits the
checkpoint, credits remaining gas and refund, transfers the output to the
return data buffer and pushes 1; a Revert-class result reverts the
checkpoint, credits remaining gas but no refund, transfers the output and
pushes 0; every other (Halt) result reverts the checkpoint, credits
neither gas nor refund, and pushes 0. -/
theorem C1_theorem {α : Type} (j : Journaled α) (ip : ParentInterp) (mem : SharedMemory)
    (o : CallOutcome)
    (hstack : ip.stack.len < STACK_LIMIT)
    (hmem : o.memory_start + min o.memory_length o.result.output.length ≤ mem.len)
    (hnf : o.result.result ≠ .FatalExternalError) :
    (o.result.result.is_ok = true →
      call_return j o.result.result = j.checkpoint_commit ∧
      Interpreter.insert_call_outcome ip mem o =
        some ({ stack := ⟨1 :: ip.stack.data⟩,
                gas := (ip.gas.erase_cost o.result.gas.remaining).record_refund
                  o.result.gas.refunded,
                return_data_buffer := o.result.output,
                instruction_result := .Continue },
          (mem.set o.memory_start
            (o.result.output.take (min o.memory_length o.result.output.length))).getD mem)) ∧
    (o.result.result.is_revert = true →
      call_return j o.result.result = j.checkpoint_revert ∧
      Interpreter.insert_call_outcome ip mem o =
        some ({ stack := ⟨0 :: ip.stack.data⟩,
                gas := ip.gas.erase_cost o.result.gas.remaining,
                return_data_buffer := o.result.output,
                instruction_result := .Continue },
          (mem.set o.memory_start
            (o.result.output.take (min o.memory_length o.result.output.length))).getD mem)) ∧
    (o.result.result.is_ok = false → o.result.result.is_revert = false →
      call_return j o.result.result = j.checkpoint_revert ∧
      Interpreter.insert_call_outcome ip mem o =
        some ({ stack := ⟨0 :: ip.stack.data⟩,
                gas := ip.gas,
                return_data_buffer := o.result.output,
                instruction_result := .Continue }, mem)) := by
  have hpush : ∀ v, Stack.push ip.stack v = .ok ⟨v :: ip.stack.data⟩ := by
    intro v
    unfold Stack.push
    rw [if_neg (by unfold Stack.len at hstack; omega)]
  have hset : mem.set o.memory_start
      (o.result.output.take (min o.memory_length o.result.output.length)) =
      some ((mem.set o.memory_start
        (o.result.output.take (min o.memory_length o.result.output.length))).getD mem) := by
    unfold SharedMemory.set
    split
    · rfl
    · rw [if_pos]
      · rfl
      · have : (o.result.output.take (min o.memory_length o.result.output.length)).length =
            min o.memory_length o.result.output.length := by
          rw [List.length_take]
          omega
        rw [this]
        exact hmem
  refine ⟨?_, ?_, ?_⟩
  · intro hok
    refine ⟨by unfold call_return; rw [if_pos hok], ?_⟩
    generalize hmm : (mem.set o.memory_start
      (o.result.output.take (min o.memory_length o.result.output.length))).getD mem = mm
    rw [hmm] at hset
    unfold Interpreter.insert_call_outcome
    simp only [hok, if_true, hset, hpush]
  · intro hrev
    have hok : o.result.result.is_ok = false := by
      cases hr : o.result.result <;> simp_all [InstructionResult.is_ok,
        InstructionResult.is_revert]
    refine ⟨by simp [call_return, hok], ?_⟩
    generalize hmm : (mem.set o.memory_start
      (o.result.output.take (min o.memory_length o.result.output.length))).getD mem = mm
    rw [hmm] at hset
    unfold Interpreter.insert_call_outcome
    simp only [hok, hrev, Bool.false_eq_true, if_false, if_true, hset, hpush]
  · intro h1 h2
    refine ⟨by simp [call_return, h1], ?_⟩
    unfold Interpreter.insert_call_outcome
    simp only [h1, h2, Bool.false_eq_true, if_false, hpush]
    rw [if_neg hnf]

/-- C1 witness: a Stop child outcome applied to a concrete parent commits
the checkpoint, credits gas, and pushes 1. -/
theorem C1_witness :
    call_return (⟨0, [], 1⟩ : Journaled Nat) .Stop
        = Journaled.checkpoint_commit (⟨0, [], 1⟩ : Journaled Nat) ∧
      Interpreter.insert_call_outcome ⟨⟨[]⟩, Gas.new 5, [], .Continue⟩ ⟨[], [], 0⟩
          ⟨⟨.Stop, [], Gas.new 3⟩, 0, 0⟩
        = some (⟨⟨[1]⟩, ⟨5, 8, 0⟩, [], .Continue⟩, ⟨[], [], 0⟩) := by
  have h := (C1_theorem (⟨0, [], 1⟩ : Journaled Nat) ⟨⟨[]⟩, Gas.new 5, [], .Continue⟩
    ⟨[], [], 0⟩ ⟨⟨.Stop, [], Gas.new 3⟩, 0, 0⟩ (by decide) (by decide) (by decide)).1 rfl
  exact ⟨h.1, h.2.trans (by decide)⟩

/-! ## RETURN / REVERT (crates/interpreter/src/instructions/control.rs, return_inner)

  The pop!, as_usize_or_fail! and resize_memory! macros live in a macros
  file that is not under src/; they are modelled from the spec: pop checks
  the stack size before popping (StackUnderflow), a U256 above usize::MAX
  fails with InvalidOperandOOG, and memory expansion charges the quadratic
  cost 3w + w^2/512 (spec 4.1) and only resizes if the charge succeeds
  (MemoryOOG otherwise). -/

/-- Word count of a byte length (shared_memory.rs num_words). -/
def num_words (len : Nat) : Nat := (len + 31) / 32

/-- Modelled from the spec: quadratic memory cost 3w + w^2/512 (spec 4.1;
gas/calc.rs is not under src/). -/
def memory_gas (w : Nat) : Nat := 3 * w + w * w / 512

/-- Modelled from the spec: the resize_memory! macro; charge is the cost
difference, and the memory only resizes if the charge succeeds. -/
def resize_memory (m : SharedMemory) (g : Gas) (offset len : Nat) :
    Except InstructionResult (SharedMemory × Gas) :=
  let new_size := offset + len
  if new_size > m.len then
    let nw := num_words new_size
    let cw := num_words m.len
    match g.record_cost (memory_gas nw - memory_gas cw) with
    | none => .error .MemoryOOG
    | some g2 => .ok (m.resize (nw * 32), g2)
  else .ok (m, g)

/-- Fields of the Interpreter touched by return_inner. -/
structure RetInterp where
  stack : Stack
  shared_memory : SharedMemory
  gas : Gas
  instruction_result : InstructionResult
  next_action : Option InterpreterResult
deriving Repr, DecidableEq

/-- Function `return_inner` (control.rs), shared body of the RETURN and
REVERT handlers: pops (offset, len); when len is nonzero it bounds-checks
offset, resizes memory (charging expansion gas) and copies the slice;
when len is zero the offset is never inspected and the output is empty. -/
def return_inner (s : RetInterp) (instruction_result : InstructionResult) : RetInterp :=
  match s.stack.data with
  | offset :: len :: rest =>
    if len ≥ U64_LIMIT then
      { s with stack := ⟨rest⟩, instruction_result := .InvalidOperandOOG }
    else if len ≠ 0 then
      if offset ≥ U64_LIMIT then
        { s with stack := ⟨rest⟩, instruction_result := .InvalidOperandOOG }
      else
        match resize_memory s.shared_memory s.gas offset len with
        | .error e => { s with stack := ⟨rest⟩, instruction_result := e }
        | .ok (mem, g) =>
          let output := (mem.context_memory.drop offset).take len
          { stack := ⟨rest⟩, shared_memory := mem, gas := g,
            instruction_result := instruction_result,
            next_action := some ⟨instruction_result, output, g⟩ }
    else
      { s with stack := ⟨rest⟩, instruction_result := instruction_result,
               next_action := some ⟨instruction_result, [], s.gas⟩ }
  | _ => { s with instruction_result := .StackUnderflow }

/-- C10 (confirmed): whenever the popped length operand is zero, the popped
offset operand is never inspected: no memory resize happens, no
memory-expansion gas is charged, and the frame output is empty, for every
offset value, including offsets beyond the memory size or beyond
usize::MAX. -/
theorem C10_theorem (offset : Nat) (rest : List Nat) (mem : SharedMemory) (g : Gas)
    (prev : InstructionResult) (na : Option InterpreterResult) (res : InstructionResult) :
    return_inner ⟨⟨offset :: 0 :: rest⟩, mem, g, prev, na⟩ res =
      ⟨⟨rest⟩, mem, g, res, some ⟨res, [], g⟩⟩ := by
  unfold return_inner
  dsimp only
  rw [if_neg (by unfold U64_LIMIT; omega)]
  rw [if_neg (by omega)]

/-! ## RJUMPV (crates/interpreter/src/instructions/control.rs, rjumpv)

  We model the program-counter transition of the handler; pc is the index
  of the RJUMPV opcode byte and the interpreter step has already advanced
  the instruction pointer to pc + 1.  The require_eof! and gas! guards and
  the stack pop are contextual (the popped case value is the argument). -/

/-- Modelled from the spec: read_i16, big-endian signed 16-bit immediate
(instructions/utility.rs is not under src/). -/
def read_i16 (code : List Nat) (i : Nat) : Int :=
  let v := (code.getD i 0) * 256 + code.getD (i + 1) 0
  if v < 2 ^ 15 then (v : Int) else (v : Int) - 2 ^ 16

/-- Modelled from the spec: the as_isize_saturated! conversion of a popped
U256 to isize. -/
def as_isize_saturated (x : Nat) : Nat := min x (2 ^ 63 - 1)

/-- Handler `rjumpv` (control.rs): reads the max_index immediate, computes
the fall-through offset (max_index + 1) * 2 + 1 past the jump table, and
adds the selected table entry when case <= max_index. -/
def rjumpv (code : List Nat) (pc : Nat) (caseVal : Nat) : Int :=
  let ip := pc + 1
  let case_i := as_isize_saturated caseVal
  let max_index := code.getD ip 0
  let offset0 : Int := ((max_index : Int) + 1) * 2 + 1
  let offset :=
    if case_i ≤ max_index then offset0 + read_i16 code (ip + 1 + 2 * case_i)
    else offset0
  (ip : Int) + offset

/-- Program of the spec RJUMPV scenario:
RJUMPV 0x01 0x0001 0x0002 NOP NOP NOP RJUMP 0xFFF4 STOP. -/
def rjumpvProgram : List Nat :=
  [0xE2, 0x01, 0x00, 0x01, 0x00, 0x02, 0x5B, 0x5B, 0x5B, 0xE0, 0xFF, 0xF4, 0x00]

/-- C6 counterexample: the claim asserts fall-through for every case value
c >= max_index; with max_index = 1 and case = 1 the code applies the
second table offset (new pc 8), it does not fall through (which would be
pc 6 = ip + (max_index + 1) * 2 + 1). -/
theorem C6_counterexample :
    rjumpv rjumpvProgram 0 1 = 8 ∧ rjumpv rjumpvProgram 0 1 ≠ 6 := by decide

/-- C6 (amended): for a case value c <= max_index the program counter moves
to ip + (max_index + 1) * 2 + 1 plus the signed table entry for case c
(so case 0 reaches the first case target and case 1 the second); the jump
table is skipped without applying any table offset exactly for
c > max_index. -/
theorem C6_theorem (code : List Nat) (pc : Nat) (c : Nat)
    (hbyte : code.getD (pc + 1) 0 < 256) :
    (c ≤ code.getD (pc + 1) 0 →
      rjumpv code pc c =
        ((pc : Int) + 1) + (((code.getD (pc + 1) 0 : Int) + 1) * 2 + 1)
          + read_i16 code (pc + 1 + 1 + 2 * c)) ∧
    (code.getD (pc + 1) 0 < c →
      rjumpv code pc c =
        ((pc : Int) + 1) + (((code.getD (pc + 1) 0 : Int) + 1) * 2 + 1)) := by
  constructor
  · intro hc
    have hsat : as_isize_saturated c = c := by
      unfold as_isize_saturated
      omega
    unfold rjumpv
    dsimp only
    rw [hsat, if_pos hc]
    push_cast
    ring
  · intro hc
    have hsat : ¬ (as_isize_saturated c ≤ code.getD (pc + 1) 0) := by
      unfold as_isize_saturated
      omega
    unfold rjumpv
    dsimp only
    rw [if_neg hsat]
    push_cast
    ring

/-- C6 witness: case 0 on the spec scenario program reaches the first case
target (pc 7). -/
theorem C6_witness :
    rjumpv rjumpvProgram 0 0 =
      ((0 : Int) + 1) + (((rjumpvProgram.getD (0 + 1) 0 : Int) + 1) * 2 + 1)
        + read_i16 rjumpvProgram (0 + 1 + 1 + 2 * 0) :=
  (C6_theorem rjumpvProgram 0 0 (by decide)).1 (by decide)

/-! ## Transaction validation against state (crates/primitives/src/env.rs)

  `Env::validate_tx_against_state` checks EIP-3607, the nonce, and the
  balance, in that order; U256 arithmetic uses checked multiplication and
  addition (overflow is OverflowPaymentInTransaction) and the blob fee uses
  saturating multiplication.  The feature-gated cfg switches default to
  false.  The Account argument is only mutated when the balance check is
  disabled. -/

inductive InvalidTransaction where
  | RejectCallerWithCode
  | NonceTooHigh (tx state : Nat)
  | NonceTooLow (tx state : Nat)
  | OverflowPaymentInTransaction
  | LackOfFundForMaxFee (fee balance : Nat)
deriving Repr, DecidableEq

/-- Keccak256 hash of the empty byte string
(crates/primitives/src/utilities.rs). -/
def KECCAK_EMPTY : Nat :=
  0xc5d2460186f7233c927e7db2dcc703c0e500b653ca82273b7bfad8045d85a470

structure AccountInfo where
  balance : Nat
  nonce : Nat
  code_hash : Nat
  code : List Nat
deriving Repr, DecidableEq

/-- Cfg switches consulted by validate_tx_against_state
(is_eip3607_disabled, is_balance_check_disabled). -/
structure CfgFlags where
  disable_eip3607 : Bool
  disable_balance_check : Bool
deriving Repr, DecidableEq

/-- TxEnv fields consulted by validate_tx_against_state. -/
structure TxFields where
  gas_limit : Nat
  gas_price : Nat
  value : Nat
  nonce : Option Nat
  blob_hashes_len : Nat
  max_fee_per_blob_gas : Option Nat
deriving Repr, DecidableEq

/-- EIP-4844 gas per blob, 2^17 (the kzg constants module is not under
src/; the value is fixed by EIP-4844). -/
def GAS_PER_BLOB : Nat := 131072

/-- Method `TxEnv::get_total_blob_gas`: GAS_PER_BLOB * blob_hashes.len(). -/
def get_total_blob_gas (tx : TxFields) : Nat := GAS_PER_BLOB * tx.blob_hashes_len

/-- U256 saturating multiplication. -/
def sat_mul_u256 (a b : Nat) : Nat := min (a * b) (U256_LIMIT - 1)

/-- Method `Env::calc_max_data_fee`:
`max_fee_per_blob_gas.map(|f| f.saturating_mul(total_blob_gas))`. -/
def calc_max_data_fee (tx : TxFields) : Option Nat :=
  tx.max_fee_per_blob_gas.map (fun mf => sat_mul_u256 mf (get_total_blob_gas tx))

/-- Balance part of validate_tx_against_state: the checked computation of
`gas_limit * gas_price + value (+ max data fee from Cancun)` followed by
the balance comparison. -/
def validate_balance (cfg : CfgFlags) (tx : TxFields) (is_cancun : Bool)
    (account : AccountInfo) : AccountInfo × Option InvalidTransaction :=
  if tx.gas_limit * tx.gas_price ≥ U256_LIMIT then
    (account, some .OverflowPaymentInTransaction)
  else if tx.gas_limit * tx.gas_price + tx.value ≥ U256_LIMIT then
    (account, some .OverflowPaymentInTransaction)
  else
    let bc := tx.gas_limit * tx.gas_price + tx.value
    let bc2 := if is_cancun then bc + (calc_max_data_fee tx).getD 0 else bc
    if is_cancun ∧ bc2 ≥ U256_LIMIT then
      (account, some .OverflowPaymentInTransaction)
    else if bc2 > account.balance then
      if cfg.disable_balance_check then ({ account with balance := bc2 }, none)
      else (account, some (.LackOfFundForMaxFee bc2 account.balance))
    else (account, none)

/-- Method `Env::validate_tx_against_state` (env.rs lines 88-120): EIP-3607
check, nonce check, then balance check. -/
def validate_tx_against_state (cfg : CfgFlags) (tx : TxFields) (is_cancun : Bool)
    (account : AccountInfo) : AccountInfo × Option InvalidTransaction :=
  if ¬cfg.disable_eip3607 = true ∧ account.code_hash ≠ KECCAK_EMPTY then
    (account, some .RejectCallerWithCode)
  else
    match tx.nonce with
    | some txn =>
      if txn > account.nonce then (account, some (.NonceTooHigh txn account.nonce))
      else if txn < account.nonce then (account, some (.NonceTooLow txn account.nonce))
      else validate_balance cfg tx is_cancun account
    | none => validate_balance cfg tx is_cancun account

/-- C8 counterexample: the claim asserts the rejection is
LackOfFundForMaxFee exactly when balance < gas_limit * gas_price + value;
a transaction with insufficient balance but a mismatched nonce is rejected
with NonceTooHigh instead, so the (only if) direction fails. -/
theorem C8_counterexample :
    (validate_tx_against_state ⟨false, false⟩ ⟨1, 1, 0, some 1, 0, none⟩ false
        ⟨0, 0, KECCAK_EMPTY, []⟩).2 = some (.NonceTooHigh 1 0) ∧
      (0 : Nat) < 1 * 1 + 0 ∧
      (validate_tx_against_state ⟨false, false⟩ ⟨1, 1, 0, some 1, 0, none⟩ false
        ⟨0, 0, KECCAK_EMPTY, []⟩).2 ≠ some (.LackOfFundForMaxFee 1 0) := by
  refine ⟨by decide, by decide, by decide⟩

/-- Max blob fee term of the balance requirement (value before any
saturation). -/
def max_fee_term (tx : TxFields) : Nat :=
  match tx.max_fee_per_blob_gas with
  | some mf => mf * get_total_blob_gas tx
  | none => 0

/-- Balance the claim requires the caller to hold:
gas_limit * gas_price + value, plus the max blob data fee from Cancun on. -/
def required_balance (tx : TxFields) (is_cancun : Bool) : Nat :=
  tx.gas_limit * tx.gas_price + tx.value + (if is_cancun then max_fee_term tx else 0)

theorem calc_max_data_fee_getD (tx : TxFields) (h : max_fee_term tx < U256_LIMIT) :
    (calc_max_data_fee tx).getD 0 = max_fee_term tx := by
  unfold calc_max_data_fee
  unfold max_fee_term at h ⊢
  cases hm : tx.max_fee_per_blob_gas with
  | none => rfl
  | some mf =>
    rw [hm] at h
    dsimp only at h
    show sat_mul_u256 mf (get_total_blob_gas tx) = mf * get_total_blob_gas tx
    unfold sat_mul_u256
    exact min_eq_left (by omega)

theorem validate_balance_spec (cfg : CfgFlags) (tx : TxFields) (is_cancun : Bool)
    (acc : AccountInfo)
    (hbal : cfg.disable_balance_check = false)
    (hov : required_balance tx is_cancun < U256_LIMIT) :
    validate_balance cfg tx is_cancun acc =
      if acc.balance < required_balance tx is_cancun then
        (acc, some (.LackOfFundForMaxFee (required_balance tx is_cancun) acc.balance))
      else (acc, none) := by
  cases is_cancun with
  | false =>
    unfold required_balance at hov ⊢
    simp only [Bool.false_eq_true, if_false, Nat.add_zero] at hov ⊢
    unfold validate_balance
    rw [if_neg (by omega), if_neg (by omega)]
    dsimp only
    simp only [Bool.false_eq_true, if_false, false_and]
    by_cases hgt : tx.gas_limit * tx.gas_price + tx.value > acc.balance
    · rw [if_pos hgt, hbal]
      simp only [Bool.false_eq_true, if_false]
      rw [if_pos (by omega)]
    · rw [if_neg hgt, if_neg (by omega)]
  | true =>
    unfold required_balance at hov ⊢
    simp only [if_true] at hov ⊢
    have hfee : (calc_max_data_fee tx).getD 0 = max_fee_term tx :=
      calc_max_data_fee_getD tx (by omega)
    unfold validate_balance
    rw [if_neg (by omega), if_neg (by omega)]
    dsimp only
    simp only [if_true, hfee, true_and]
    rw [if_neg (by omega)]
    by_cases hgt : tx.gas_limit * tx.gas_price + tx.value + max_fee_term tx > acc.balance
    · rw [if_pos hgt, hbal]
      simp only [Bool.false_eq_true, if_false]
      rw [if_pos (by omega)]
    · rw [if_neg hgt, if_neg (by omega)]

/-- C8 (amended): with the balance check enabled, for transactions that
pass the EIP-3607 and nonce checks and whose fee computation does not
overflow U256, validate_tx_against_state rejects with LackOfFundForMaxFee
exactly when balance < gas_limit * gas_price + value (+ the max blob data
fee from Cancun onward), and it leaves the account unchanged. -/
theorem C8_theorem (cfg : CfgFlags) (tx : TxFields) (is_cancun : Bool) (acc : AccountInfo)
    (hbal : cfg.disable_balance_check = false)
    (h3607 : cfg.disable_eip3607 = true ∨ acc.code_hash = KECCAK_EMPTY)
    (hnonce : ∀ n, tx.nonce = some n → n = acc.nonce)
    (hov : required_balance tx is_cancun < U256_LIMIT) :
    (validate_tx_against_state cfg tx is_cancun acc).1 = acc ∧
    ((validate_tx_against_state cfg tx is_cancun acc).2 =
        some (.LackOfFundForMaxFee (required_balance tx is_cancun) acc.balance) ↔
      acc.balance < required_balance tx is_cancun) := by
  have hval : validate_tx_against_state cfg tx is_cancun acc =
      validate_balance cfg tx is_cancun acc := by
    unfold validate_tx_against_state
    rw [if_neg (by
      intro hcon
      rcases h3607 with h | h
      · rw [h] at hcon
        exact hcon.1 rfl
      · exact hcon.2 h)]
    cases hn : tx.nonce with
    | none => rfl
    | some txn =>
      have htx := hnonce txn hn
      dsimp only
      rw [if_neg (by omega), if_neg (by omega)]
  rw [hval, validate_balance_spec cfg tx is_cancun acc hbal hov]
  by_cases hlt : acc.balance < required_balance tx is_cancun
  · rw [if_pos hlt]
    exact ⟨rfl, by simp [hlt]⟩
  · rw [if_neg hlt]
    refine ⟨rfl, ?_⟩
    constructor
    · intro hcon
      cases hcon
    · intro hcon
      exact absurd hcon hlt

/-- C8 witness: a concrete underfunded transaction (balance 100, required
21005) is rejected with LackOfFundForMaxFee and the account is unchanged. -/
theorem C8_witness :
    (validate_tx_against_state ⟨false, false⟩ ⟨21000, 1, 5, none, 0, none⟩ false
        ⟨100, 0, KECCAK_EMPTY, []⟩).1 = ⟨100, 0, KECCAK_EMPTY, []⟩ ∧
      (validate_tx_against_state ⟨false, false⟩ ⟨21000, 1, 5, none, 0, none⟩ false
        ⟨100, 0, KECCAK_EMPTY, []⟩).2 = some (.LackOfFundForMaxFee 21005 100) := by
  have h := C8_theorem ⟨false, false⟩ ⟨21000, 1, 5, none, 0, none⟩ false
    ⟨100, 0, KECCAK_EMPTY, []⟩ rfl (Or.inr rfl) (by intro n hn; cases hn) (by decide)
  exact ⟨h.1, (h.2.mpr (by decide)).trans (by decide)⟩

/-! ## EVM context frame construction (crates/bcevm/src/context/evm_context.rs
  and inner_evm_context.rs)

  The journaled state (journaled_state.rs is not under src/) is modelled
  from the spec as a snapshot-stack journal over an account map; addresses
  are Nat.  Database loads of absent accounts yield the empty account
  (spec 6: `basic` None means the account does not exist).  Address
  derivation (keccak) is a cryptographic primitive out of the spec scope
  and enters as a function parameter. -/

def CALL_STACK_LIMIT : Nat := 1024

structure EvmAccounts where
  accounts : List (Nat × AccountInfo)
deriving Repr, DecidableEq

/-- Modelled from the spec: account load with empty-account default. -/
def EvmAccounts.get (st : EvmAccounts) (a : Nat) : AccountInfo :=
  match st.accounts.find? (fun p => p.1 == a) with
  | some p => p.2
  | none => ⟨0, 0, KECCAK_EMPTY, []⟩

def EvmAccounts.set (st : EvmAccounts) (a : Nat) (info : AccountInfo) : EvmAccounts :=
  ⟨(a, info) :: st.accounts⟩

/-- Modelled from the spec: `JournaledState::transfer` — insufficient
balance gives OutOfFunds, U256 balance overflow of the receiver gives
OverflowPayment (spec 4.10 and 7); checks run before any mutation. -/
def transfer (j : Journaled EvmAccounts) (src dst : Nat) (value : Nat) :
    Journaled EvmAccounts × Option InstructionResult :=
  let f := j.cur.get src
  if f.balance < value then (j, some .OutOfFunds)
  else
    let st1 := j.cur.set src { f with balance := f.balance - value }
    let t := st1.get dst
    if t.balance + value ≥ U256_LIMIT then (j, some .OverflowPayment)
    else ({ j with cur := st1.set dst { t with balance := t.balance + value } }, none)

/-- Call value (crates/interpreter call_inputs): a real transfer or an
apparent (delegate) value. -/
inductive CallValue where
  | transfer (v : Nat)
  | apparent (v : Nat)
deriving Repr, DecidableEq

/-- Value-handling step of `make_call_frame` (evm_context.rs): a zero-value
transfer only loads and touches the target; a nonzero transfer moves the
balance and may fail. -/
def call_value_step (j1 : Journaled EvmAccounts) (inputs_value : CallValue)
    (caller target : Nat) : Journaled EvmAccounts × Option InstructionResult :=
  match inputs_value with
  | .transfer v => if v = 0 then (j1, none) else transfer j1 caller target v
  | .apparent _ => (j1, none)

inductive FrameOrResult where
  | frame (bytecode : List Nat) (code_hash : Nat) (input : List Nat)
      (gas_limit : Nat) (is_static : Bool) (ret_start ret_len : Nat)
  | result (r : InterpreterResult) (ret_start ret_len : Nat)
deriving Repr, DecidableEq

def FrameOrResult.isFrame : FrameOrResult → Bool
  | .frame .. => true
  | .result .. => false

structure CallInputs where
  input : List Nat
  gas_limit : Nat
  bytecode_address : Nat
  target_address : Nat
  caller : Nat
  value : CallValue
  is_static : Bool
  return_memory_start : Nat
  return_memory_len : Nat
deriving Repr, DecidableEq

/-- Method `EvmContext::make_call_frame` (evm_context.rs lines 94-147):
depth check, code load, checkpoint, value transfer, precompile dispatch,
and frame creation or immediate Stop result for empty callee code.
Precompile execution is abstracted by the `pexec` parameter (registry
dispatch); the set of precompile addresses is the `precompiles` list. -/
def make_call_frame (precompiles : List Nat)
    (pexec : Nat → List Nat → Nat → InterpreterResult)
    (j : Journaled EvmAccounts) (inputs : CallInputs) :
    Journaled EvmAccounts × FrameOrResult :=
  let gas := Gas.new inputs.gas_limit
  if j.depth > CALL_STACK_LIMIT then
    (j, .result ⟨.CallTooDeep, [], gas⟩ inputs.return_memory_start inputs.return_memory_len)
  else
    let account := j.cur.get inputs.bytecode_address
    let code_hash := account.code_hash
    let bytecode := account.code
    let j1 := j.checkpoint
    match call_value_step j1 inputs.value inputs.caller inputs.target_address with
    | (j2, some r) =>
      (j2.checkpoint_revert,
        .result ⟨r, [], gas⟩ inputs.return_memory_start inputs.return_memory_len)
    | (j2, none) =>
      if inputs.bytecode_address ∈ precompiles then
        let res := pexec inputs.bytecode_address inputs.input gas.limit
        if res.result.is_ok then
          (j2.checkpoint_commit,
            .result res inputs.return_memory_start inputs.return_memory_len)
        else
          (j2.checkpoint_revert,
            .result res inputs.return_memory_start inputs.return_memory_len)
      else if bytecode ≠ [] then
        (j2, .frame bytecode code_hash inputs.input gas.limit inputs.is_static
          inputs.return_memory_start inputs.return_memory_len)
      else
        (j2.checkpoint_commit,
          .result ⟨.Stop, [], gas⟩ inputs.return_memory_start inputs.return_memory_len)

theorem call_value_step_frame (j1 : Journaled EvmAccounts) (v : CallValue)
    (caller target : Nat) :
    (call_value_step j1 v caller target).1.saved = j1.saved ∧
      (call_value_step j1 v caller target).1.depth = j1.depth := by
  cases v with
  | transfer x =>
    unfold call_value_step
    dsimp only
    split
    · exact ⟨rfl, rfl⟩
    · unfold transfer
      dsimp only
      split
      · exact ⟨rfl, rfl⟩
      · split
        · exact ⟨rfl, rfl⟩
        · exact ⟨rfl, rfl⟩
  | apparent x =>
    exact ⟨rfl, rfl⟩

/-- C9 (confirmed): in make_call_frame, when the callee is not a
precompile, the value transfer succeeds, and the callee code is empty, no
interpreter frame is created: the call immediately produces the Success
result Stop with empty output and the full gas limit remaining, and the
frame checkpoint is committed (snapshot stack and depth restored, value
transfer kept). -/
theorem C9_theorem (precompiles : List Nat)
    (pexec : Nat → List Nat → Nat → InterpreterResult)
    (j : Journaled EvmAccounts) (inputs : CallInputs)
    (hdepth : j.depth ≤ CALL_STACK_LIMIT)
    (hnp : inputs.bytecode_address ∉ precompiles)
    (hcode : (j.cur.get inputs.bytecode_address).code = [])
    (htr : (call_value_step j.checkpoint inputs.value inputs.caller
        inputs.target_address).2 = none) :
    make_call_frame precompiles pexec j inputs =
      (⟨(call_value_step j.checkpoint inputs.value inputs.caller
          inputs.target_address).1.cur, j.saved, j.depth⟩,
       .result ⟨.Stop, [], Gas.new inputs.gas_limit⟩
         inputs.return_memory_start inputs.return_memory_len) := by
  unfold make_call_frame
  rw [if_neg (by omega)]
  dsimp only
  have hsplit : call_value_step j.checkpoint inputs.value inputs.caller
      inputs.target_address =
      ((call_value_step j.checkpoint inputs.value inputs.caller
        inputs.target_address).1, none) := by
    rw [← htr]
  rw [hsplit]
  dsimp only
  rw [if_neg hnp]
  rw [hcode]
  rw [if_neg (by simp)]
  have hsd := call_value_step_frame j.checkpoint inputs.value inputs.caller
    inputs.target_address
  unfold Journaled.checkpoint_commit
  rw [hsd.1, hsd.2]
  rfl

/-- C9 witness: calling an account with empty code at depth 0 with a
concrete value transfer produces the Stop result with full gas and a
committed checkpoint. -/
theorem C9_witness :
    make_call_frame [] (fun _ _ _ => ⟨.Stop, [], Gas.new 0⟩)
        ⟨⟨[(1, ⟨50, 0, KECCAK_EMPTY, []⟩)]⟩, [], 0⟩
        ⟨[], 7, 2, 2, 1, .transfer 10, false, 3, 4⟩ =
      (⟨⟨[(2, ⟨10, 0, KECCAK_EMPTY, []⟩), (1, ⟨40, 0, KECCAK_EMPTY, []⟩),
          (1, ⟨50, 0, KECCAK_EMPTY, []⟩)]⟩, [], 0⟩,
       .result ⟨.Stop, [], Gas.new 7⟩ 3 4) := by
  have h := C9_theorem [] (fun _ _ _ => ⟨.Stop, [], Gas.new 0⟩)
    ⟨⟨[(1, ⟨50, 0, KECCAK_EMPTY, []⟩)]⟩, [], 0⟩
    ⟨[], 7, 2, 2, 1, .transfer 10, false, 3, 4⟩
    (by decide) (by decide) (by decide) (by decide)
  exact h.trans (by decide)

/-! ## Create and EOF-create frame construction (inner_evm_context.rs) -/

/-- Modelled from the spec: `JournaledState::inc_nonce`, None on u64
overflow. -/
def inc_nonce (j : Journaled EvmAccounts) (a : Nat) :
    Journaled EvmAccounts × Option Nat :=
  let acc := j.cur.get a
  if acc.nonce = U64_LIMIT - 1 then (j, none)
  else ({ j with cur := j.cur.set a { acc with nonce := acc.nonce + 1 } }, some (acc.nonce + 1))

/-- Modelled from the spec: `JournaledState::create_account_checkpoint` —
collision on existing code or nonce gives CreateCollision, otherwise a
nested checkpoint is created, value moves from the caller and the created
account starts with nonce 1 (spec 4.10, 7). -/
def create_account_checkpoint (j : Journaled EvmAccounts) (caller created value : Nat) :
    Journaled EvmAccounts × Option InstructionResult :=
  let acc := j.cur.get created
  if acc.code ≠ [] ∨ acc.nonce ≠ 0 then (j, some .CreateCollision)
  else if acc.balance + value ≥ U256_LIMIT then (j, some .OverflowPayment)
  else
    let j1 := j.checkpoint
    let cacc := j1.cur.get caller
    let st1 := j1.cur.set caller { cacc with balance := cacc.balance - value }
    let nacc := st1.get created
    let st2 := st1.set created { nacc with balance := nacc.balance + value, nonce := 1 }
    ({ j1 with cur := st2 }, none)

structure CreateInputs where
  caller : Nat
  value : Nat
  init_code : List Nat
  gas_limit : Nat
  is_create2 : Bool
  salt : Nat
deriving Repr, DecidableEq

inductive CreateFrameOrResult where
  | frame (created_address : Nat) (init_code : List Nat) (gas_limit : Nat)
  | result (r : InterpreterResult) (created_address : Option Nat)
deriving Repr, DecidableEq

def CreateFrameOrResult.isFrame : CreateFrameOrResult → Bool
  | .frame .. => true
  | .result .. => false

/-- Method `InnebcevmContext::make_create_frame` (inner_evm_context.rs
lines 188-245): depth check, balance check, nonce bump, address
derivation, account load, account-creation checkpoint, frame creation.
The keccak-based address derivation enters as the addr_of parameter
(cryptographic primitives are out of spec scope). -/
def make_create_frame (addr_of : CreateInputs → Nat → Nat)
    (j : Journaled EvmAccounts) (inputs : CreateInputs) :
    Journaled EvmAccounts × CreateFrameOrResult :=
  let gas := Gas.new inputs.gas_limit
  if j.depth > CALL_STACK_LIMIT then (j, .result ⟨.CallTooDeep, [], gas⟩ none)
  else if (j.cur.get inputs.caller).balance < inputs.value then
    (j, .result ⟨.OutOfFunds, [], gas⟩ none)
  else
    match inc_nonce j inputs.caller with
    | (j1, none) => (j1, .result ⟨.Return, [], gas⟩ none)
    | (j1, some new_nonce) =>
      let created_address := addr_of inputs (new_nonce - 1)
      match create_account_checkpoint j1 inputs.caller created_address inputs.value with
      | (j2, some e) => (j2, .result ⟨e, [], gas⟩ none)
      | (j2, none) => (j2, .frame created_address inputs.init_code gas.limit)

structure EOFCreateInputs where
  caller : Nat
  value : Nat
  created_address : Nat
  gas_limit : Nat
  return_memory_start : Nat
  return_memory_len : Nat
deriving Repr, DecidableEq

inductive EOFFrameOrResult where
  | frame (created_address : Nat) (gas_limit : Nat) (ret_start ret_len : Nat)
  | result (r : InterpreterResult) (created_address : Nat) (ret_start ret_len : Nat)
deriving Repr, DecidableEq

def EOFFrameOrResult.isFrame : EOFFrameOrResult → Bool
  | .frame .. => true
  | .result .. => false

/-- Method `InnebcevmContext::make_eofcreate_frame` (inner_evm_context.rs
lines 125-180): depth check, balance check, nonce bump, account load,
account-creation checkpoint, frame creation. -/
def make_eofcreate_frame (j : Journaled EvmAccounts) (inputs : EOFCreateInputs) :
    Journaled EvmAccounts × EOFFrameOrResult :=
  let gas := Gas.new inputs.gas_limit
  if j.depth > CALL_STACK_LIMIT then
    (j, .result ⟨.CallTooDeep, [], gas⟩ inputs.created_address
      inputs.return_memory_start inputs.return_memory_len)
  else if (j.cur.get inputs.caller).balance < inputs.value then
    (j, .result ⟨.OutOfFunds, [], gas⟩ inputs.created_address
      inputs.return_memory_start inputs.return_memory_len)
  else
    match inc_nonce j inputs.caller with
    | (j1, none) =>
      (j1, .result ⟨.Return, [], gas⟩ inputs.created_address
        inputs.return_memory_start inputs.return_memory_len)
    | (j1, some _) =>
      match create_account_checkpoint j1 inputs.caller inputs.created_address
          inputs.value with
      | (j2, some e) =>
        (j2, .result ⟨e, [], gas⟩ inputs.created_address
          inputs.return_memory_start inputs.return_memory_len)
      | (j2, none) =>
        (j2, .frame inputs.created_address gas.limit
          inputs.return_memory_start inputs.return_memory_len)

/-! ## Frame driver (crates/bcevm/src/evm.rs, run_the_loop)

  The driver keeps a Vec of frames (count modelled as Nat) and reacts to
  interpreter actions: a Call/Create/EOFCreate action runs the matching
  frame constructor, pushing a frame when one is produced; a Return action
  pops the top frame and runs the matching return handler, which performs
  exactly one checkpoint_commit or checkpoint_revert (call_return,
  create_return, eofcreate_return all do). -/

inductive DriverStep : Nat × Journaled EvmAccounts → Nat × Journaled EvmAccounts → Prop where
  | call_push (f : Nat) (j : Journaled EvmAccounts) (pre : List Nat)
      (pexec : Nat → List Nat → Nat → InterpreterResult) (inputs : CallInputs) :
      (make_call_frame pre pexec j inputs).2.isFrame = true →
      DriverStep (f, j) (f + 1, (make_call_frame pre pexec j inputs).1)
  | call_result (f : Nat) (j : Journaled EvmAccounts) (pre : List Nat)
      (pexec : Nat → List Nat → Nat → InterpreterResult) (inputs : CallInputs) :
      (make_call_frame pre pexec j inputs).2.isFrame = false →
      DriverStep (f, j) (f, (make_call_frame pre pexec j inputs).1)
  | create_push (f : Nat) (j : Journaled EvmAccounts) (addr_of : CreateInputs → Nat → Nat)
      (inputs : CreateInputs) :
      (make_create_frame addr_of j inputs).2.isFrame = true →
      DriverStep (f, j) (f + 1, (make_create_frame addr_of j inputs).1)
  | create_result (f : Nat) (j : Journaled EvmAccounts) (addr_of : CreateInputs → Nat → Nat)
      (inputs : CreateInputs) :
      (make_create_frame addr_of j inputs).2.isFrame = false →
      DriverStep (f, j) (f, (make_create_frame addr_of j inputs).1)
  | eofcreate_push (f : Nat) (j : Journaled EvmAccounts) (inputs : EOFCreateInputs) :
      (make_eofcreate_frame j inputs).2.isFrame = true →
      DriverStep (f, j) (f + 1, (make_eofcreate_frame j inputs).1)
  | eofcreate_result (f : Nat) (j : Journaled EvmAccounts) (inputs : EOFCreateInputs) :
      (make_eofcreate_frame j inputs).2.isFrame = false →
      DriverStep (f, j) (f, (make_eofcreate_frame j inputs).1)
  | ret_commit (f : Nat) (j : Journaled EvmAccounts) :
      0 < f → DriverStep (f, j) (f - 1, j.checkpoint_commit)
  | ret_revert (f : Nat) (j : Journaled EvmAccounts) :
      0 < f → DriverStep (f, j) (f - 1, j.checkpoint_revert)

theorem make_call_frame_depth (pre : List Nat)
    (pexec : Nat → List Nat → Nat → InterpreterResult)
    (j : Journaled EvmAccounts) (inputs : CallInputs) :
    (if (make_call_frame pre pexec j inputs).2.isFrame then
      (make_call_frame pre pexec j inputs).1.depth = j.depth + 1 ∧ j.depth ≤ CALL_STACK_LIMIT
    else (make_call_frame pre pexec j inputs).1.depth = j.depth) := by
  unfold make_call_frame
  by_cases hd : j.depth > CALL_STACK_LIMIT
  · rw [if_pos hd]
    simp [FrameOrResult.isFrame]
  · rw [if_neg hd]
    dsimp only
    have hsd := call_value_step_frame j.checkpoint inputs.value inputs.caller
      inputs.target_address
    rcases hpair : call_value_step j.checkpoint inputs.value inputs.caller
        inputs.target_address with ⟨j2, r⟩
    rw [hpair] at hsd
    have hj2 : j2.depth = j.depth + 1 := by
      have h2 := hsd.2
      simp only [Journaled.checkpoint] at h2
      exact h2
    cases r with
    | some e =>
      simp only [FrameOrResult.isFrame, Bool.false_eq_true, if_false,
        Journaled.checkpoint_revert]
      omega
    | none =>
      by_cases hp : inputs.bytecode_address ∈ pre
      · by_cases hok : (pexec inputs.bytecode_address inputs.input
            (Gas.new inputs.gas_limit).limit).result.is_ok = true
        · simp only [if_pos hp, if_pos hok, FrameOrResult.isFrame, Bool.false_eq_true,
            if_false, Journaled.checkpoint_commit]
          omega
        · simp only [if_pos hp, if_neg hok, FrameOrResult.isFrame, Bool.false_eq_true,
            if_false, Journaled.checkpoint_revert]
          omega
      · by_cases hbc : (j.cur.get inputs.bytecode_address).code ≠ []
        · simp only [if_neg hp, if_pos hbc, FrameOrResult.isFrame, if_true]
          omega
        · simp only [if_neg hp, if_neg hbc, FrameOrResult.isFrame, Bool.false_eq_true,
            if_false, Journaled.checkpoint_commit]
          omega

theorem create_account_checkpoint_depth (j : Journaled EvmAccounts)
    (caller created value : Nat) :
    ((create_account_checkpoint j caller created value).2.isSome = true →
      (create_account_checkpoint j caller created value).1.depth = j.depth) ∧
    ((create_account_checkpoint j caller created value).2 = none →
      (create_account_checkpoint j caller created value).1.depth = j.depth + 1) := by
  unfold create_account_checkpoint
  dsimp only
  by_cases h1 : (j.cur.get created).code ≠ [] ∨ (j.cur.get created).nonce ≠ 0
  · rw [if_pos h1]
    exact ⟨fun _ => rfl, fun h => by cases h⟩
  · rw [if_neg h1]
    by_cases h2 : (j.cur.get created).balance + value ≥ U256_LIMIT
    · rw [if_pos h2]
      exact ⟨fun _ => rfl, fun h => by cases h⟩
    · rw [if_neg h2]
      refine ⟨fun h => ?_, fun _ => rfl⟩
      cases h

theorem inc_nonce_depth (j : Journaled EvmAccounts) (a : Nat) :
    (inc_nonce j a).1.depth = j.depth := by
  unfold inc_nonce
  dsimp only
  by_cases h : (j.cur.get a).nonce = U64_LIMIT - 1
  · rw [if_pos h]
  · rw [if_neg h]

theorem make_create_frame_depth (addr_of : CreateInputs → Nat → Nat)
    (j : Journaled EvmAccounts) (inputs : CreateInputs) :
    (if (make_create_frame addr_of j inputs).2.isFrame then
      (make_create_frame addr_of j inputs).1.depth = j.depth + 1 ∧ j.depth ≤ CALL_STACK_LIMIT
    else (make_create_frame addr_of j inputs).1.depth = j.depth) := by
  unfold make_create_frame
  by_cases hd : j.depth > CALL_STACK_LIMIT
  · rw [if_pos hd]
    simp [CreateFrameOrResult.isFrame]
  · rw [if_neg hd]
    by_cases hb : (j.cur.get inputs.caller).balance < inputs.value
    · simp only [if_pos hb, CreateFrameOrResult.isFrame, Bool.false_eq_true, if_false]
    · simp only [if_neg hb]
      rcases hni : inc_nonce j inputs.caller with ⟨j1, nn⟩
      have hj1 : j1.depth = j.depth := by
        have h1 := inc_nonce_depth j inputs.caller
        rw [hni] at h1
        exact h1
      cases nn with
      | none =>
        simp only [CreateFrameOrResult.isFrame, Bool.false_eq_true, if_false]
        exact hj1
      | some new_nonce =>
        dsimp only
        have hcc := create_account_checkpoint_depth j1 inputs.caller
          (addr_of inputs (new_nonce - 1)) inputs.value
        rcases hcp : create_account_checkpoint j1 inputs.caller
            (addr_of inputs (new_nonce - 1)) inputs.value with ⟨j2, r⟩
        rw [hcp] at hcc
        cases r with
        | some e =>
          have hdd : j2.depth = j1.depth := hcc.1 rfl
          simp only [CreateFrameOrResult.isFrame, Bool.false_eq_true, if_false]
          omega
        | none =>
          have hdd : j2.depth = j1.depth + 1 := hcc.2 rfl
          simp only [CreateFrameOrResult.isFrame, if_true]
          omega

theorem make_eofcreate_frame_depth (j : Journaled EvmAccounts) (inputs : EOFCreateInputs) :
    (if (make_eofcreate_frame j inputs).2.isFrame then
      (make_eofcreate_frame j inputs).1.depth = j.depth + 1 ∧ j.depth ≤ CALL_STACK_LIMIT
    else (make_eofcreate_frame j inputs).1.depth = j.depth) := by
  unfold make_eofcreate_frame
  by_cases hd : j.depth > CALL_STACK_LIMIT
  · rw [if_pos hd]
    simp [EOFFrameOrResult.isFrame]
  · rw [if_neg hd]
    by_cases hb : (j.cur.get inputs.caller).balance < inputs.value
    · simp only [if_pos hb, EOFFrameOrResult.isFrame, Bool.false_eq_true, if_false]
    · simp only [if_neg hb]
      rcases hni : inc_nonce j inputs.caller with ⟨j1, nn⟩
      have hj1 : j1.depth = j.depth := by
        have h1 := inc_nonce_depth j inputs.caller
        rw [hni] at h1
        exact h1
      cases nn with
      | none =>
        simp only [EOFFrameOrResult.isFrame, Bool.false_eq_true, if_false]
        exact hj1
      | some new_nonce =>
        dsimp only
        have hcc := create_account_checkpoint_depth j1 inputs.caller
          inputs.created_address inputs.value
        rcases hcp : create_account_checkpoint j1 inputs.caller
            inputs.created_address inputs.value with ⟨j2, r⟩
        rw [hcp] at hcc
        cases r with
        | some e =>
          have hdd : j2.depth = j1.depth := hcc.1 rfl
          simp only [EOFFrameOrResult.isFrame, Bool.false_eq_true, if_false]
          omega
        | none =>
          have hdd : j2.depth = j1.depth + 1 := hcc.2 rfl
          simp only [EOFFrameOrResult.isFrame, if_true]
          omega

theorem driver_step_inv (a b : Nat × Journaled EvmAccounts) (h : DriverStep a b)
    (hinv : a.1 = a.2.depth) : b.1 = b.2.depth ∧ (a.1 ≤ 1025 → b.1 ≤ 1025) := by
  cases h with
  | call_push f j pre pexec inputs hfr =>
    have hd := make_call_frame_depth pre pexec j inputs
    rw [hfr, if_pos rfl] at hd
    dsimp only at hinv ⊢
    unfold CALL_STACK_LIMIT at hd
    exact ⟨by omega, by omega⟩
  | call_result f j pre pexec inputs hfr =>
    have hd := make_call_frame_depth pre pexec j inputs
    rw [hfr] at hd
    simp only [Bool.false_eq_true, if_false] at hd
    dsimp only at hinv ⊢
    exact ⟨by omega, by omega⟩
  | create_push f j addr_of inputs hfr =>
    have hd := make_create_frame_depth addr_of j inputs
    rw [hfr, if_pos rfl] at hd
    dsimp only at hinv ⊢
    unfold CALL_STACK_LIMIT at hd
    exact ⟨by omega, by omega⟩
  | create_result f j addr_of inputs hfr =>
    have hd := make_create_frame_depth addr_of j inputs
    rw [hfr] at hd
    simp only [Bool.false_eq_true, if_false] at hd
    dsimp only at hinv ⊢
    exact ⟨by omega, by omega⟩
  | eofcreate_push f j inputs hfr =>
    have hd := make_eofcreate_frame_depth j inputs
    rw [hfr, if_pos rfl] at hd
    dsimp only at hinv ⊢
    unfold CALL_STACK_LIMIT at hd
    exact ⟨by omega, by omega⟩
  | eofcreate_result f j inputs hfr =>
    have hd := make_eofcreate_frame_depth j inputs
    rw [hfr] at hd
    simp only [Bool.false_eq_true, if_false] at hd
    dsimp only at hinv ⊢
    exact ⟨by omega, by omega⟩
  | ret_commit f j hf =>
    dsimp only at hinv ⊢
    simp only [Journaled.checkpoint_commit]
    exact ⟨by omega, by omega⟩
  | ret_revert f j hf =>
    dsimp only at hinv ⊢
    simp only [Journaled.checkpoint_revert]
    exact ⟨by omega, by omega⟩

/-- Accounts for the C5 trajectory: address 5 holds one byte of code. -/
def c5_accounts : EvmAccounts := ⟨[(5, ⟨0, 0, KECCAK_EMPTY, [0]⟩)]⟩

/-- A call to address 5 with zero value. -/
def c5_inputs : CallInputs := ⟨[], 0, 5, 5, 1, .transfer 0, false, 0, 0⟩

/-- Journal after k nested frame checkpoints on the C5 accounts. -/
def c5_j (k : Nat) : Journaled EvmAccounts :=
  ⟨c5_accounts, List.replicate k c5_accounts, k⟩

theorem c5_make (k : Nat) (hk : k ≤ 1024) :
    make_call_frame [] (fun _ _ _ => ⟨.Stop, [], Gas.new 0⟩) (c5_j k) c5_inputs =
      (c5_j (k + 1), .frame [0] KECCAK_EMPTY [] 0 false 0 0) := by
  unfold make_call_frame
  rw [if_neg (by simp only [c5_j, CALL_STACK_LIMIT]; omega)]
  rfl

theorem c5_step (k : Nat) (hk : k ≤ 1024) :
    DriverStep (k, c5_j k) (k + 1, c5_j (k + 1)) := by
  have hfr : (make_call_frame [] (fun _ _ _ => ⟨.Stop, [], Gas.new 0⟩)
      (c5_j k) c5_inputs).2.isFrame = true := by
    rw [c5_make k hk]
    rfl
  have h := DriverStep.call_push k (c5_j k) []
    (fun _ _ _ => ⟨.Stop, [], Gas.new 0⟩) c5_inputs hfr
  have h1 : (make_call_frame [] (fun _ _ _ => ⟨.Stop, [], Gas.new 0⟩)
      (c5_j k) c5_inputs).1 = c5_j (k + 1) := by
    rw [c5_make k hk]
  rw [h1] at h
  exact h

theorem c5_reach : ∀ k, k ≤ 1025 →
    Relation.ReflTransGen DriverStep (0, c5_j 0) (k, c5_j k) := by
  intro k
  induction k with
  | zero =>
    intro _
    exact Relation.ReflTransGen.refl
  | succ n ih =>
    intro hn
    exact Relation.ReflTransGen.tail (ih (by omega)) (c5_step n (by omega))

/-- C5 counterexample: the claim concludes that the frame driver never
holds more than 1024 frames; a chain of legal driver steps (each frame
construction passing the depth guard `depth > CALL_STACK_LIMIT`) reaches a
state with 1025 frames: the top-level frame plus 1024 nested frames. -/
theorem C5_counterexample :
    Relation.ReflTransGen DriverStep (0, c5_j 0) (1025, c5_j 1025) ∧ 1024 < 1025 :=
  ⟨c5_reach 1025 (Nat.le_refl _), by decide⟩

/-- C5 (amended): every call, create, or EOF-create frame construction
returns CallTooDeep when the journaled depth exceeds CALL_STACK_LIMIT =
1024; consequently the frame driver holds at most 1025 frames (the
top-level frame plus up to 1024 nested ones), and 1025 is reachable. -/
theorem C5_theorem :
    (∀ (pre : List Nat) (pexec : Nat → List Nat → Nat → InterpreterResult)
        (j : Journaled EvmAccounts) (ci : CallInputs),
      CALL_STACK_LIMIT < j.depth →
      (make_call_frame pre pexec j ci).2 =
        .result ⟨.CallTooDeep, [], Gas.new ci.gas_limit⟩
          ci.return_memory_start ci.return_memory_len) ∧
    (∀ (addr_of : CreateInputs → Nat → Nat) (j : Journaled EvmAccounts)
        (cri : CreateInputs),
      CALL_STACK_LIMIT < j.depth →
      (make_create_frame addr_of j cri).2 =
        .result ⟨.CallTooDeep, [], Gas.new cri.gas_limit⟩ none) ∧
    (∀ (j : Journaled EvmAccounts) (ei : EOFCreateInputs),
      CALL_STACK_LIMIT < j.depth →
      (make_eofcreate_frame j ei).2 =
        .result ⟨.CallTooDeep, [], Gas.new ei.gas_limit⟩ ei.created_address
          ei.return_memory_start ei.return_memory_len) ∧
    (∀ s s2 : Nat × Journaled EvmAccounts, Relation.ReflTransGen DriverStep s s2 →
      s.1 = s.2.depth → s.1 ≤ 1025 → s2.1 = s2.2.depth ∧ s2.1 ≤ 1025) := by
  refine ⟨?_, ?_, ?_, ?_⟩
  · intro pre pexec j ci h
    unfold make_call_frame
    rw [if_pos (by omega)]
  · intro addr_of j cri h
    unfold make_create_frame
    rw [if_pos (by omega)]
  · intro j ei h
    unfold make_eofcreate_frame
    rw [if_pos (by omega)]
  · intro s s2 h
    induction h with
    | refl => exact fun hinv hle => ⟨hinv, hle⟩
    | tail hab hbc ih =>
      intro hinv hle
      have hb := ih hinv hle
      have hc := driver_step_inv _ _ hbc hb.1
      exact ⟨hc.1, hc.2 hb.2⟩

/-- C5 witness: at journal depth 1025 a concrete call frame construction
returns CallTooDeep, and the driver invariant holds at the initial state. -/
theorem C5_witness :
    CALL_STACK_LIMIT < (c5_j 1025).depth ∧
      (make_call_frame [] (fun _ _ _ => ⟨.Stop, [], Gas.new 0⟩) (c5_j 1025)
          ⟨[], 9, 5, 5, 1, .transfer 0, false, 2, 3⟩).2 =
        .result ⟨.CallTooDeep, [], Gas.new 9⟩ 2 3 := by
  refine ⟨by decide, ?_⟩
  exact C5_theorem.1 [] (fun _ _ _ => ⟨.Stop, [], Gas.new 0⟩) (c5_j 1025)
    ⟨[], 9, 5, 5, 1, .transfer 0, false, 2, 3⟩ (by decide)

/-! ## Legacy bytecode analysis (crates/interpreter/src/interpreter/analysis.rs)

  `to_analysed` pads raw legacy bytecode with 33 zero bytes and runs
  `analyze` over the PADDED bytes, producing a bitmap of the padded length.
  The walk advances 1 past a JUMPDEST (marking it), `push_offset + 2` past
  a PUSH (`push_offset = opcode.wrapping_sub(PUSH1) < 32`), and 1
  otherwise.  The recursion is expressed with explicit fuel; every step
  advances the pointer by at least one byte, so fuel `code.length` is
  exact. -/

def JUMPDEST : Nat := 0x5B
def PUSH1 : Nat := 0x60

/-- Pointer advance of the non-JUMPDEST branch of the analyze loop:
`opcode.wrapping_sub(PUSH1)` on u8, advance `push_offset + 2` for a PUSH
and 1 otherwise. -/
def pushAdvance (op : Nat) : Nat :=
  let push_offset := (op + 256 - PUSH1) % 256
  if push_offset < 32 then push_offset + 2 else 1

/-- Loop of `analyze`: walk the code setting the bit of every JUMPDEST
reached, skipping PUSH immediates. -/
def analyzeGo (code : List Nat) : Nat → Nat → List Bool → List Bool
  | 0, _, jumps => jumps
  | fuel + 1, i, jumps =>
    if i < code.length then
      let op := code.getD i 0
      if op = JUMPDEST then analyzeGo code fuel (i + 1) (jumps.set i true)
      else analyzeGo code fuel (i + pushAdvance op) jumps
    else jumps

/-- Function `analyze` (analysis.rs): jump table over its input, one bit
per byte, starting all zero. -/
def analyze (code : List Nat) : List Bool :=
  analyzeGo code code.length 0 (List.replicate code.length false)

/-- Function `to_analysed` for raw legacy bytecode: pad with 33 zero bytes,
analyze the padded bytes, keep the original length. -/
def to_analysed (B : List Nat) : List Nat × Nat × List Bool :=
  let padded := B ++ List.replicate 33 0
  (padded, B.length, analyze padded)

/-- Jump table of the analyzed form of raw bytecode B. -/
def legacy_jump_table (B : List Nat) : List Bool := (to_analysed B).2.2

/-- Modelled from the spec: `JumpTable::is_valid` (the primitives bytecode
module is not under src/): bitmap lookup, false out of bounds. -/
def JumpTable.is_valid (table : List Bool) (pc : Nat) : Bool := table.getD pc false

/-- Method `Contract::is_valid_jump` (contract.rs) for analyzed legacy
bytecode built from raw bytecode B. -/
def is_valid_jump (B : List Nat) (pos : Nat) : Bool :=
  JumpTable.is_valid (legacy_jump_table B) pos

/-- Combined pointer advance of the analyze walk at an opcode. -/
def advance (op : Nat) : Nat := if op = JUMPDEST then 1 else pushAdvance op

/-- Instruction-start positions reached by the analyze walk. -/
def startsFrom (code : List Nat) : Nat → Nat → List Nat
  | 0, _ => []
  | fuel + 1, i =>
    if i < code.length then i :: startsFrom code fuel (i + advance (code.getD i 0))
    else []

def starts (code : List Nat) : List Nat := startsFrom code code.length 0

/-- Number of immediate data bytes of a PUSH1..PUSH32 opcode, 0 otherwise. -/
def pushImmLen (op : Nat) : Nat :=
  if PUSH1 ≤ op ∧ op ≤ PUSH1 + 31 then op - PUSH1 + 1 else 0

/-- Claim-side predicate: byte i is consumed as immediate data of a
preceding (reached) PUSH1..PUSH32 instruction. -/
def consumedAsPushData (code : List Nat) (i : Nat) : Bool :=
  (starts code).any (fun jj =>
    decide ((PUSH1 ≤ code.getD jj 0 ∧ code.getD jj 0 ≤ PUSH1 + 31) ∧
      jj < i ∧ i ≤ jj + pushImmLen (code.getD jj 0)))

theorem pushAdvance_pos (op : Nat) : 1 ≤ pushAdvance op := by
  unfold pushAdvance
  dsimp only
  split
  · omega
  · omega

theorem advance_pos (op : Nat) : 1 ≤ advance op := by
  unfold advance
  split
  · omega
  · exact pushAdvance_pos op

theorem advance_eq (op : Nat) (h : op < 256) : advance op = pushImmLen op + 1 := by
  unfold advance pushAdvance pushImmLen JUMPDEST PUSH1
  by_cases h1 : op = 0x5B
  · rw [if_pos h1, if_neg (by omega)]
  · rw [if_neg h1]
    dsimp only
    by_cases h2 : (op + 256 - 0x60) % 256 < 32
    · rw [if_pos h2, if_pos (by omega)]
      omega
    · rw [if_neg h2, if_neg (by omega)]

theorem advance_of_jumpdest (op : Nat) (h : op = JUMPDEST) : advance op = 1 := by
  unfold advance
  rw [if_pos h]

theorem advance_of_ne (op : Nat) (h : ¬ op = JUMPDEST) : advance op = pushAdvance op := by
  unfold advance
  rw [if_neg h]

theorem list_getD_set (l : List Bool) : ∀ (i p : Nat) (b d : Bool),
    (l.set i b).getD p d = if i = p ∧ i < l.length then b else l.getD p d := by
  induction l with
  | nil =>
    intro i p b d
    simp
  | cons x xs ih =>
    intro i p b d
    cases i with
    | zero =>
      cases p with
      | zero => simp
      | succ p => simp
    | succ i =>
      cases p with
      | zero => simp
      | succ p =>
        rw [show (x :: xs).set (i + 1) b = x :: xs.set i b from rfl]
        rw [List.getD_cons_succ, List.getD_cons_succ, ih i p b d]
        by_cases h : i = p ∧ i < xs.length
        · rw [if_pos h, if_pos (by simp only [List.length_cons]; omega)]
        · rw [if_neg h, if_neg (by simp only [List.length_cons]; omega)]

theorem analyzeGo_length (code : List Nat) :
    ∀ (fuel i : Nat) (js : List Bool), (analyzeGo code fuel i js).length = js.length := by
  intro fuel
  induction fuel with
  | zero =>
    intro i js
    rfl
  | succ n ih =>
    intro i js
    unfold analyzeGo
    split
    · dsimp only
      split
      · rw [ih]
        exact List.length_set js _ _
      · exact ih _ js
    · rfl

theorem analyzeGo_bits (code : List Nat) :
    ∀ (fuel i : Nat) (js : List Bool) (p : Nat), js.length = code.length →
      ((analyzeGo code fuel i js).getD p false = true ↔
        (js.getD p false = true ∨
          (p ∈ startsFrom code fuel i ∧ code.getD p 0 = JUMPDEST))) := by
  intro fuel
  induction fuel with
  | zero =>
    intro i js p hlen
    simp [analyzeGo, startsFrom]
  | succ n ih =>
    intro i js p hlen
    simp only [analyzeGo, startsFrom]
    by_cases hi : i < code.length
    · rw [if_pos hi, if_pos hi]
      by_cases hop : code.getD i 0 = JUMPDEST
      · rw [if_pos hop]
        have hadv : i + advance (code.getD i 0) = i + 1 := by
          rw [advance_of_jumpdest _ hop]
        rw [hadv]
        rw [ih (i + 1) (js.set i true) p (by rw [List.length_set]; exact hlen)]
        rw [list_getD_set]
        by_cases hp : i = p ∧ i < js.length
        · rw [if_pos hp]
          simp only [List.mem_cons]
          constructor
          · intro _
            exact Or.inr ⟨Or.inl hp.1.symm, hp.1 ▸ hop⟩
          · intro _
            exact Or.inl trivial
        · rw [if_neg hp]
          have hpne : ¬ i = p := fun hc => hp ⟨hc, by rw [hlen]; exact hi⟩
          simp only [List.mem_cons]
          constructor
          · rintro (hjs | ⟨hmem, hjd⟩)
            · exact Or.inl hjs
            · exact Or.inr ⟨Or.inr hmem, hjd⟩
          · rintro (hjs | ⟨hpi | hmem, hjd⟩)
            · exact Or.inl hjs
            · exact absurd hpi.symm hpne
            · exact Or.inr ⟨hmem, hjd⟩
      · rw [if_neg hop]
        have hadv : i + advance (code.getD i 0) = i + pushAdvance (code.getD i 0) := by
          rw [advance_of_ne _ hop]
        rw [hadv]
        rw [ih (i + pushAdvance (code.getD i 0)) js p hlen]
        simp only [List.mem_cons]
        constructor
        · rintro (hjs | ⟨hmem, hjd⟩)
          · exact Or.inl hjs
          · exact Or.inr ⟨Or.inr hmem, hjd⟩
        · rintro (hjs | ⟨hpi | hmem, hjd⟩)
          · exact Or.inl hjs
          · rw [hpi] at hjd
            exact absurd hjd hop
          · exact Or.inr ⟨hmem, hjd⟩
    · rw [if_neg hi, if_neg hi]
      simp

theorem startsFrom_mem (code : List Nat) :
    ∀ (fuel i p : Nat), p ∈ startsFrom code fuel i → i ≤ p ∧ p < code.length := by
  intro fuel
  induction fuel with
  | zero =>
    intro i p hp
    simp [startsFrom] at hp
  | succ n ih =>
    intro i p hp
    simp only [startsFrom] at hp
    by_cases hi : i < code.length
    · rw [if_pos hi] at hp
      rcases List.mem_cons.mp hp with h | h
      · omega
      · have h2 := ih _ _ h
        have ha := advance_pos (code.getD i 0)
        omega
    · rw [if_neg hi] at hp
      simp at hp

theorem startsFrom_sorted (code : List Nat) :
    ∀ (fuel i jj p : Nat), jj ∈ startsFrom code fuel i → p ∈ startsFrom code fuel i →
      jj < p → jj + advance (code.getD jj 0) ≤ p := by
  intro fuel
  induction fuel with
  | zero =>
    intro i jj p hjj hp hlt
    simp [startsFrom] at hjj
  | succ n ih =>
    intro i jj p hjj hp hlt
    simp only [startsFrom] at hjj hp
    by_cases hi : i < code.length
    · rw [if_pos hi] at hjj hp
      rcases List.mem_cons.mp hjj with h1 | h1
      · rcases List.mem_cons.mp hp with h2 | h2
        · omega
        · have h3 := startsFrom_mem code n (i + advance (code.getD i 0)) p h2
          subst h1
          omega
      · rcases List.mem_cons.mp hp with h2 | h2
        · have h3 := startsFrom_mem code n _ jj h1
          have ha := advance_pos (code.getD i 0)
          omega
        · exact ih _ jj p h1 h2 hlt
    · rw [if_neg hi] at hjj
      simp at hjj

theorem startsFrom_cover (code : List Nat) :
    ∀ (fuel i p : Nat), code.length ≤ i + fuel → i ≤ p → p < code.length →
      p ∉ startsFrom code fuel i →
      ∃ jj, jj ∈ startsFrom code fuel i ∧ jj < p ∧
        p < jj + advance (code.getD jj 0) := by
  intro fuel
  induction fuel with
  | zero =>
    intro i p hf hip hp hnm
    omega
  | succ n ih =>
    intro i p hf hip hp hnm
    have hi : i < code.length := by omega
    simp only [startsFrom, if_pos hi] at hnm ⊢
    have hpne : ¬ p = i := fun hc => hnm (by rw [hc]; exact List.mem_cons_self _ _)
    have hap := advance_pos (code.getD i 0)
    by_cases hcase : p < i + advance (code.getD i 0)
    · exact ⟨i, List.mem_cons_self _ _, by omega, hcase⟩
    · have hnm2 : p ∉ startsFrom code n (i + advance (code.getD i 0)) :=
        fun hc => hnm (List.mem_cons.mpr (Or.inr hc))
      obtain ⟨jj, h1, h2, h3⟩ := ih (i + advance (code.getD i 0)) p (by omega) (by omega)
        hp hnm2
      exact ⟨jj, List.mem_cons.mpr (Or.inr h1), h2, h3⟩

theorem analyze_bit (code : List Nat) (p : Nat) :
    ((analyze code).getD p false = true ↔
      (p ∈ starts code ∧ code.getD p 0 = JUMPDEST)) := by
  unfold analyze starts
  rw [analyzeGo_bits code code.length 0 _ p (by rw [List.length_replicate])]
  have hrep : (List.replicate code.length false).getD p false = false := by
    by_cases hp : p < code.length
    · have hplen : p < (List.replicate code.length false).length := by
        rw [List.length_replicate]
        exact hp
      rw [List.getD_eq_getElem _ _ hplen]
      exact List.getElem_replicate false hplen
    · exact List.getD_eq_default _ _ (by rw [List.length_replicate]; omega)
  rw [hrep]
  simp

theorem analyze_valid_iff (code : List Nat) (p : Nat)
    (hcode : ∀ b ∈ code, b < 256) (hp : p < code.length) :
    ((analyze code).getD p false = true ↔
      (code.getD p 0 = JUMPDEST ∧ consumedAsPushData code p = false)) := by
  have hmem_lt : ∀ jj, jj ∈ starts code → code.getD jj 0 < 256 := by
    intro jj hjj
    have h1 := startsFrom_mem code code.length 0 jj hjj
    have h2 : code.getD jj 0 ∈ code := by
      rw [List.getD_eq_getElem _ _ h1.2]
      exact List.getElem_mem _
    exact hcode _ h2
  rw [analyze_bit]
  constructor
  · rintro ⟨hstart, hjd⟩
    refine ⟨hjd, ?_⟩
    by_contra hcon
    rw [Bool.not_eq_false] at hcon
    unfold consumedAsPushData at hcon
    rw [List.any_eq_true] at hcon
    obtain ⟨jj, hjjmem, hjj⟩ := hcon
    simp only [decide_eq_true_eq] at hjj
    obtain ⟨hpush, hlt, hle⟩ := hjj
    have hs := startsFrom_sorted code code.length 0 jj p hjjmem hstart hlt
    have hadv := advance_eq (code.getD jj 0) (hmem_lt jj hjjmem)
    omega
  · rintro ⟨hjd, hncon⟩
    refine ⟨?_, hjd⟩
    by_contra hnm
    obtain ⟨jj, hjjmem, hlt, hcover⟩ :=
      startsFrom_cover code code.length 0 p (by omega) (by omega) hp hnm
    have hadv := advance_eq (code.getD jj 0) (hmem_lt jj hjjmem)
    have himmpos : 0 < pushImmLen (code.getD jj 0) := by omega
    have hpush : PUSH1 ≤ code.getD jj 0 ∧ code.getD jj 0 ≤ PUSH1 + 31 := by
      by_contra hc
      unfold pushImmLen at himmpos
      rw [if_neg hc] at himmpos
      omega
    have htrue : consumedAsPushData code p = true := by
      unfold consumedAsPushData
      rw [List.any_eq_true]
      refine ⟨jj, hjjmem, ?_⟩
      simp only [decide_eq_true_eq]
      exact ⟨hpush, hlt, by omega⟩
    rw [hncon] at htrue
    cases htrue

/-- C3 counterexample: the claim asserts the bitmap produced for B has
length B.length, but analyze runs over the 33-byte-padded code and the
bitmap has length B.length + 33 (34 for the one-byte program [JUMPDEST]). -/
theorem C3_counterexample :
    (legacy_jump_table [0x5B]).length = 34 ∧
      (legacy_jump_table [0x5B]).length ≠ [0x5B].length := by decide

/-- C3 (amended): for raw legacy bytecode B of bytes and any index
i < B.length, is_valid_jump B i holds iff byte i of B is JUMPDEST and was
not consumed as immediate data of a preceding (reached) PUSH1..PUSH32
instruction; the bitmap produced for B has length B.length + 33 (the
padded length), not B.length. -/
theorem C3_theorem (B : List Nat) (i : Nat)
    (hB : ∀ b ∈ B, b < 256) (hi : i < B.length) :
    (is_valid_jump B i = true ↔
      (B.getD i 0 = JUMPDEST ∧
        consumedAsPushData (B ++ List.replicate 33 0) i = false)) ∧
    (legacy_jump_table B).length = B.length + 33 := by
  have hcodeB : ∀ b ∈ B ++ List.replicate 33 0, b < 256 := by
    intro b hb
    rcases List.mem_append.mp hb with h | h
    · exact hB b h
    · have := List.eq_of_mem_replicate h
      omega
  have hilen : i < (B ++ List.replicate 33 0).length := by
    rw [List.length_append, List.length_replicate]
    omega
  have h1 := analyze_valid_iff (B ++ List.replicate 33 0) i hcodeB hilen
  have hgetD : (B ++ List.replicate 33 0).getD i 0 = B.getD i 0 :=
    List.getD_append _ _ _ _ hi
  constructor
  · unfold is_valid_jump JumpTable.is_valid legacy_jump_table to_analysed
    dsimp only
    rw [h1, hgetD]
  · unfold legacy_jump_table to_analysed analyze
    dsimp only
    rw [analyzeGo_length, List.length_replicate, List.length_append, List.length_replicate]

/-- C3 witness: for the program PUSH1 0x5B JUMPDEST, position 1 (the PUSH
immediate) is not a valid jump destination and position 2 is. -/
theorem C3_witness :
    ((is_valid_jump [0x60, 0x5B, 0x5B] 2 = true) ↔
      (List.getD [0x60, 0x5B, 0x5B] 2 0 = JUMPDEST ∧
        consumedAsPushData ([0x60, 0x5B, 0x5B] ++ List.replicate 33 0) 2 = false)) ∧
      is_valid_jump [0x60, 0x5B, 0x5B] 2 = true ∧
      is_valid_jump [0x60, 0x5B, 0x5B] 1 = false := by
  refine ⟨(C3_theorem [0x60, 0x5B, 0x5B] 2 (by decide) (by decide)).1, by decide, by decide⟩

end BaronEVM

